import Mathlib

/-!
Verification development for the datacert streaming profiler core
(`src/wasm/src` of the datacert repository).

Conventions of the shallow embedding:
* Rust `String` / `&str` values are modelled as `List Char`; Rust byte slices
  (`&[u8]`) are modelled as `List Char` as well, identifying an ASCII byte with
  its character (all inputs of interest are ASCII).
* `f64` arithmetic is modelled exactly over `ℚ` (and over `ℝ` where `sqrt`
  is involved); NaN/infinity payloads are modelled by an explicit sum type
  where the source tests for them.
* Rust `u64`/`usize` counters are modelled as `ℕ`; `saturating_sub` is `ℕ`
  subtraction.
* `std::collections::HashMap` content is modelled as an insertion-ordered
  association list; where the source iterates a `HashMap`, the (unspecified,
  per-instance randomized) iteration order is made explicit as a parameter.
-/

/-! ## Generic helpers -/

/-- Split a list at every occurrence of the separator.  Always returns at
least one segment; segments do not contain the separator. -/
def splitOnSep (sep : Char) : List Char → List (List Char)
  | [] => [[]]
  | b :: bs =>
    match splitOnSep sep bs with
    | [] => [[b]]
    | s :: rest => if b = sep then [] :: s :: rest else (b :: s) :: rest

/-- Rust `char::is_whitespace` restricted to the ASCII inputs we model. -/
def isWs (c : Char) : Bool := c = ' ' ∨ c = '\t' ∨ c = '\n' ∨ c = '\r'

/-- Rust `str::trim`. -/
def strTrim (s : List Char) : List Char :=
  ((s.dropWhile isWs).reverse.dropWhile isWs).reverse

/-- Rust `str::to_lowercase` (ASCII). -/
def strLower (s : List Char) : List Char := s.map Char.toLower

/-- Rust `str::contains` for a literal pattern: some contiguous sublist
of `s` equals `pat`. -/
def containsSub (s pat : List Char) : Bool :=
  ((List.range (s.length + 1)).any fun i => (s.drop i).take pat.length = pat)

/-! ## Uniqueness (`quality/uniqueness.rs`, `calculate_uniqueness`) -/

/-- Quality uniqueness score, translated from
`quality/uniqueness.rs::calculate_uniqueness`: the non-null count is
`total_count.saturating_sub(missing_count)` (ℕ subtraction); if it is zero the
result is `1.0`, otherwise `distinct_count / non_null_count`. -/
def calculate_uniqueness (total_count missing_count distinct_count : ℕ) : ℚ :=
  let non_null_count := total_count - missing_count
  if non_null_count = 0 then 1
  else (distinct_count : ℚ) / (non_null_count : ℚ)

/-! ## Categorical accumulator (`stats/categorical.rs`) -/

/-- A finalized frequency entry (`FreqEntry`). -/
structure FreqEntry where
  value : List Char
  count : ℕ
  percentage : ℚ
deriving DecidableEq, Repr

/-- Finalized categorical statistics (`CategoricalStats`). -/
structure CategoricalStats where
  top_values : List FreqEntry
  unique_count : ℕ
deriving DecidableEq, Repr

/-- State of `CategoricalAccumulator`.  The `HashMap<String, u64>` content is
modelled as an association list ordered by first insertion. -/
structure CatAcc where
  counts : List (List Char × ℕ)
  total_count : ℕ
  max_unique : ℕ
deriving DecidableEq, Repr

/-- `CategoricalAccumulator::new`. -/
def catNew (max_unique : ℕ) : CatAcc := ⟨[], 0, max_unique⟩

/-- Increment the count of an existing key, keeping its position. -/
def bumpKey (k : List Char) : List (List Char × ℕ) → List (List Char × ℕ)
  | [] => []
  | (k', c) :: rest => if k' = k then (k', c + 1) :: rest else (k', c) :: bumpKey k rest

/-- `CategoricalAccumulator::update`: always bump `total_count`; bump an
existing key, otherwise insert with count 1 only below the `max_unique` cap. -/
def catUpdate (acc : CatAcc) (value : List Char) : CatAcc :=
  { acc with
    total_count := acc.total_count + 1
    counts :=
      if (acc.counts.any fun p => p.1 = value) then bumpKey value acc.counts
      else if acc.counts.length < acc.max_unique then acc.counts ++ [(value, 1)]
      else acc.counts }

/-- Stable insertion (descending by count): an element is placed after every
element whose count is ≥ its own, exactly as Rust's stable
`sort_by(|a, b| b.count.cmp(&a.count))` orders equal keys. -/
def insertDescByCount (x : FreqEntry) : List FreqEntry → List FreqEntry
  | [] => [x]
  | y :: ys => if x.count ≤ y.count then y :: insertDescByCount x ys else x :: y :: ys

/-- Stable sort, descending by count. -/
def sortDescByCount : List FreqEntry → List FreqEntry
  | [] => []
  | x :: xs => insertDescByCount x (sortDescByCount xs)

/-- `CategoricalAccumulator::finalize`, with the `HashMap` iteration order made
explicit: `order` lists the keys in the order the map happens to yield them
(`self.counts.iter()`), which for `std::collections::HashMap` is randomized per
instance and is in general neither insertion order nor any fixed order. -/
def catFinalizeWithOrder (acc : CatAcc) (order : List (List Char)) : CategoricalStats :=
  let entries := order.filterMap fun k =>
    (acc.counts.lookup k).map fun c =>
      FreqEntry.mk k c ((c : ℚ) / (acc.total_count : ℚ) * 100)
  { top_values := (sortDescByCount entries).take 10
    unique_count := acc.counts.length }

/-- Keys of the accumulator, in insertion order. -/
def catKeys (acc : CatAcc) : List (List Char) := acc.counts.map Prod.fst

/-! ## Delimited-text parser (`parser/csv.rs`)

The source delegates record reading to the external `csv` crate
(`ReaderBuilder`).  That crate is not part of this repository, so its record
reader is modelled from the specification: records are newline-separated
lines (empty lines are skipped), fields are obtained by splitting a line at
the delimiter, and—per the crate's strict length checking that the
repository's own `test_malformed_row` pins down—a record whose field count
differs from the reader's expected width is a malformed record.  A reader
constructed with headers enabled expects the header width; a reader
constructed without headers expects the width of the first record it reads. -/

/-- Split a byte stream into the complete lines (everything up to and
including the last `'\n'`, one entry per line, `'\n'` terminators removed)
and the trailing remainder after the last `'\n'`. -/
def lineSplit : List Char → List (List Char) × List Char
  | [] => ([], [])
  | c :: cs =>
    let p := lineSplit cs
    if c = '\n' then ([] :: p.1, p.2)
    else
      match p.1 with
      | [] => ([], c :: p.2)
      | l :: ls => ((c :: l) :: ls, p.2)

/-- Fields of one record line. -/
def fieldsOf (delim : Char) (line : List Char) : List (List Char) := splitOnSep delim line

/-- All records a reader yields when run over a whole byte slice to EOF:
every nonempty line, including a final line with no `'\n'` terminator. -/
def allRecordLines (data : List Char) : List (List Char) :=
  ((lineSplit data).1 ++ [(lineSplit data).2]).filter fun l => !l.isEmpty

/-- Output of one reader pass: rows emitted, malformed records, records seen. -/
structure ReadOut where
  rows : List (List (List Char))
  malformed : ℕ
  total : ℕ
deriving DecidableEq, Repr

/-- Modelled from the spec: one `csv`-crate reader pass over a list of
nonempty record lines.  `exp` is the expected field count (`some` of the
header width when the reader consumes headers, `none` for a headerless
reader, which takes its expected width from the first record it reads).
Records of the expected width are emitted; others count as malformed. -/
def readRecs (delim : Char) : Option ℕ → List (List Char) → ReadOut
  | _, [] => ⟨[], 0, 0⟩
  | none, l :: ls =>
    let r := fieldsOf delim l
    let o := readRecs delim (some r.length) ls
    ⟨r :: o.rows, o.malformed, o.total + 1⟩
  | some w, l :: ls =>
    let r := fieldsOf delim l
    let o := readRecs delim (some w) ls
    if r.length = w then ⟨r :: o.rows, o.malformed, o.total + 1⟩
    else ⟨o.rows, o.malformed + 1, o.total + 1⟩

/-- State of `CsvParser`. -/
structure CsvState where
  delimiter : Char
  has_headers : Bool
  header_data : Option (List (List Char))
  malformed_count : ℕ
  total_rows : ℕ
  remainder : List Char
deriving DecidableEq, Repr

/-- `ParseResult` of `parser/csv.rs`. -/
structure ParseResult where
  headers : List (List Char)
  rows : List (List (List Char))
  malformed_count : ℕ
  total_rows : ℕ
deriving DecidableEq, Repr

/-- `CsvParser::new`. -/
def csvNew (delimiter : Option Char) (has_headers : Bool) : CsvState :=
  ⟨delimiter.getD ',', has_headers, none, 0, 0, []⟩

/-- `CsvParser::parse_chunk`: append the chunk to the carried remainder, cut
at the last newline, run one reader over the complete lines (consuming
headers first if they are still owed), and retain the suffix after the last
newline as the new remainder.  Counters are cumulative. -/
def parse_chunk (s : CsvState) (chunk : List Char) : CsvState × ParseResult :=
  let p := lineSplit (s.remainder ++ chunk)
  let ne := p.1.filter fun l => !l.isEmpty
  if s.has_headers = true ∧ s.header_data = none then
    match ne with
    | [] => ({ s with remainder := p.2 }, ⟨[], [], s.malformed_count, s.total_rows⟩)
    | h :: rest =>
      let hd := fieldsOf s.delimiter h
      let o := readRecs s.delimiter (some hd.length) rest
      ({ s with header_data := some hd
                malformed_count := s.malformed_count + o.malformed
                total_rows := s.total_rows + o.total
                remainder := p.2 },
       ⟨hd, o.rows, s.malformed_count + o.malformed, s.total_rows + o.total⟩)
  else
    let o := readRecs s.delimiter none ne
    ({ s with malformed_count := s.malformed_count + o.malformed
              total_rows := s.total_rows + o.total
              remainder := p.2 },
     ⟨s.header_data.getD [], o.rows, s.malformed_count + o.malformed,
      s.total_rows + o.total⟩)

/-- `CsvParser::flush`: run a headerless reader over the retained remainder
and clear it. -/
def csvFlush (s : CsvState) : CsvState × ParseResult :=
  if s.remainder.isEmpty then
    (s, ⟨s.header_data.getD [], [], s.malformed_count, s.total_rows⟩)
  else
    let o := readRecs s.delimiter none (allRecordLines s.remainder)
    ({ s with malformed_count := s.malformed_count + o.malformed
              total_rows := s.total_rows + o.total
              remainder := [] },
     ⟨s.header_data.getD [], o.rows, s.malformed_count + o.malformed,
      s.total_rows + o.total⟩)

/-- Feed a list of chunks through `parse_chunk`, collecting all emitted rows. -/
def runChunks (s : CsvState) : List (List Char) → CsvState × List (List (List Char))
  | [] => (s, [])
  | c :: cs =>
    let r := parse_chunk s c
    let o := runChunks r.1 cs
    (o.1, r.2.rows ++ o.2)

/-- Feed chunks, then `flush`; result is the final state and every row
emitted across the whole session. -/
def runThenFlush (s : CsvState) (chunks : List (List Char)) :
    CsvState × List (List (List Char)) :=
  let r := runChunks s chunks
  let f := csvFlush r.1
  (f.1, r.2 ++ f.2.rows)

/-! ## Delimiter auto-detection (`CsvParser::auto_detect_delimiter`) -/

/-- Score of one candidate delimiter, translated from the body of the
candidate loop of `auto_detect_delimiter`: read up to 10 records with a
headerless reader (the modelled crate reader skips records whose width
differs from the first record's, so `row_lengths` collects only widths equal
to the first), and score `count * first_len` only when more than one record
parsed, the first record has more than one field, and all collected lengths
agree. -/
def detectScore (delim : Char) (data : List Char) : ℕ :=
  match (allRecordLines data).take 10 with
  | [] => 0
  | h :: rest =>
    let w := (fieldsOf delim h).length
    let row_lengths := w :: rest.filterMap fun l =>
      if (fieldsOf delim l).length = w then some (fieldsOf delim l).length else none
    let count := row_lengths.length
    if 1 < count ∧ 1 < w ∧ row_lengths.all fun x => x = w then count * w else 0

/-- `CsvParser::auto_detect_delimiter`: fold over the candidates
`, \t ; |` keeping the first candidate whose score strictly exceeds the
running maximum; the initial best is `,` with score 0. -/
def auto_detect_delimiter (data : List Char) : Char :=
  (([',', '\t', ';', '|'] : List Char).foldl
    (fun best d =>
      let score := detectScore d data
      if best.2 < score then (d, score) else best)
    (',', 0)).1

/-! ## Correlation accumulator (`stats/correlation.rs`) -/

/-- State of `CorrelationAccumulator` for `n` numeric columns.  The `n×n`
matrices are stored flat (`idx = i * n + j`) exactly as in the source; the
column-name map only routes values to indices and is dropped: `update` is
modelled from the `parsed_values` stage on (lines 86–174), taking the row
already parsed to `Option` values per column. -/
structure CorrAcc where
  n : ℕ
  pair_counts : List ℕ
  means : List ℚ
  m2s : List ℚ
  co_moments : List ℚ
  column_counts : List ℕ
deriving DecidableEq, Repr

/-- `CorrelationAccumulator::new`. -/
def corrNew (n : ℕ) : CorrAcc :=
  ⟨n, List.replicate (n * n) 0, List.replicate n 0, List.replicate n 0,
   List.replicate (n * n) 0, List.replicate n 0⟩

/-- Phase 1 of `CorrelationAccumulator::update`: per-column Welford pass
(means, M2, counts), executed for every valid column before any pair work. -/
def corrWelfordPass (acc : CorrAcc) (parsed : List (Option ℚ)) : CorrAcc :=
  (List.range acc.n).foldl
    (fun a i =>
      match parsed.getD i none with
      | none => a
      | some val =>
        let count := a.column_counts.getD i 0 + 1
        let delta := val - a.means.getD i 0
        let mean := a.means.getD i 0 + delta / (count : ℚ)
        let delta2 := val - mean
        { a with
          means := a.means.set i mean
          m2s := a.m2s.set i (a.m2s.getD i 0 + delta * delta2)
          column_counts := a.column_counts.set i count })
    acc

/-- `CorrelationAccumulator::update` as implemented: after the Welford pass,
for every ordered valid pair `(i, j)` the pair count is incremented and,
only once the pair count exceeds 1, the co-moment receives
`((p-1)/p) · (x − μ_i) · (y − μ_j)` with both means taken *after* this
row's mean updates. -/
def corrUpdate (acc : CorrAcc) (parsed : List (Option ℚ)) : CorrAcc :=
  if acc.n = 0 then acc
  else
    let a1 := corrWelfordPass acc parsed
    (List.range a1.n).foldl
      (fun a i =>
        match parsed.getD i none with
        | none => a
        | some val_i =>
          (List.range a.n).foldl
            (fun b j =>
              match parsed.getD j none with
              | none => b
              | some val_j =>
                let idx := i * b.n + j
                let pair_count := b.pair_counts.getD idx 0 + 1
                let mean_x := b.means.getD i 0
                let mean_y := b.means.getD j 0
                let delta_x := val_i - mean_x
                let delta_y := val_j - mean_y
                let b1 := { b with pair_counts := b.pair_counts.set idx pair_count }
                if 1 < pair_count then
                  let factor := ((pair_count - 1 : ℕ) : ℚ) / (pair_count : ℚ)
                  let co := b1.co_moments.getD idx 0 + factor * delta_x * delta_y
                  { b1 with co_moments := b1.co_moments.set idx co }
                else b1)
            a)
      a1

/-- The per-row correlation update the specification states (its
"mathematically correct variant"): the same Welford pass, then for every
ordered valid pair `p_ij ← p_ij + 1` and
`C_ij ← C_ij + δ_x_old · (y − μ_j_new)`, where `δ_x_old` uses column `i`'s
mean from before this row and `μ_j_new` is column `j`'s mean after this
row's update.  Stated for comparison with `corrUpdate`. -/
def specCorrUpdate (acc : CorrAcc) (parsed : List (Option ℚ)) : CorrAcc :=
  if acc.n = 0 then acc
  else
    let a1 := corrWelfordPass acc parsed
    (List.range a1.n).foldl
      (fun a i =>
        match parsed.getD i none with
        | none => a
        | some val_i =>
          (List.range a.n).foldl
            (fun b j =>
              match parsed.getD j none with
              | none => b
              | some val_j =>
                let idx := i * b.n + j
                let delta_x_old := val_i - acc.means.getD i 0
                let mu_j_new := b.means.getD j 0
                { b with
                  pair_counts := b.pair_counts.set idx (b.pair_counts.getD idx 0 + 1)
                  co_moments := b.co_moments.set idx
                    (b.co_moments.getD idx 0 + delta_x_old * (val_j - mu_j_new)) })
            a)
      a1

/-- One entry of `CorrelationAccumulator::finalize`: 1.0 on the diagonal;
otherwise, when the pair count exceeds 1 and both sample variances
`M2_k/(n_k − 1)` (per-column counts!) are positive, the clamped ratio of the
covariance `C_ij/(p_ij − 1)` to the product of the standard deviations;
otherwise 0.0. -/
noncomputable def corrFinalizeEntry (acc : CorrAcc) (i j : ℕ) : ℝ :=
  let idx := i * acc.n + j
  let count := acc.pair_counts.getD idx 0
  if i = j then 1
  else if 1 < count then
    let var_x := ((acc.m2s.getD i 0 : ℚ) : ℝ) / ((acc.column_counts.getD i 0 : ℕ) - 1 : ℝ)
    let var_y := ((acc.m2s.getD j 0 : ℚ) : ℝ) / ((acc.column_counts.getD j 0 : ℕ) - 1 : ℝ)
    if 0 < var_x ∧ 0 < var_y then
      let covariance := ((acc.co_moments.getD idx 0 : ℚ) : ℝ) / ((count : ℝ) - 1)
      let r := covariance / (Real.sqrt var_x * Real.sqrt var_y)
      max (-1) (min 1 r)
    else 0
  else 0

/-- The finalize entry the claim states: 1.0 on the diagonal; otherwise
`C_ij / √(M2_i · M2_j)` clamped to `[-1, 1]` when `p_ij > 1` and
`M2_i · M2_j > 0`; otherwise 0.0.  Stated for comparison with
`corrFinalizeEntry`. -/
noncomputable def specCorrEntry (acc : CorrAcc) (i j : ℕ) : ℝ :=
  let idx := i * acc.n + j
  let p := acc.pair_counts.getD idx 0
  if i = j then 1
  else
    let prod := ((acc.m2s.getD i 0 : ℚ) : ℝ) * ((acc.m2s.getD j 0 : ℚ) : ℝ)
    if 1 < p ∧ 0 < prod then
      max (-1) (min 1 (((acc.co_moments.getD idx 0 : ℚ) : ℝ) / Real.sqrt prod))
    else 0

/-! ## Numeric moments accumulator (`stats/numeric.rs`) -/

/-- An `f64` input as the source's guards see it: a finite value (modelled
exactly as a rational) or one of the non-finite payloads. -/
inductive F where
  | fin (q : ℚ)
  | nan
  | posInf
  | negInf
deriving DecidableEq, Repr

/-- `f64::is_nan`. -/
def F.isNan : F → Bool
  | .nan => true
  | _ => false

/-- `f64::is_infinite`. -/
def F.isInfinite : F → Bool
  | .posInf => true
  | .negInf => true
  | _ => false

/-- Finite payload (only read on the guarded finite path). -/
def F.toRat : F → ℚ
  | .fin q => q
  | _ => 0

/-- `val < m` for a finite `val` against the running `min` (which starts at
`+∞`); comparisons against NaN are false. -/
def F.ltF (q : ℚ) : F → Bool
  | .fin r => q < r
  | .posInf => true
  | .negInf => false
  | .nan => false

/-- `val > m` for a finite `val` against the running `max` (which starts at
`-∞`). -/
def F.gtF (q : ℚ) : F → Bool
  | .fin r => r < q
  | .negInf => true
  | .posInf => false
  | .nan => false

/-- State of `NumericStats`.  The Welford fields are exact rationals; the
derived fields written only by `finalize` (`std_dev`, `skewness`, `kurtosis`
involve square roots) are reals. -/
structure NumericStats where
  min : F
  max : F
  mean : ℚ
  sum : ℚ
  count : ℕ
  std_dev : ℝ
  variance : ℝ
  skewness : ℝ
  kurtosis : ℝ
  median : ℚ
  p25 : ℚ
  p75 : ℚ
  p90 : ℚ
  p95 : ℚ
  p99 : ℚ
  m2 : ℚ
  m3 : ℚ
  m4 : ℚ

/-- `NumericStats::new`. -/
def numericNew : NumericStats :=
  ⟨F.posInf, F.negInf, 0, 0, 0, 0, 0, 0, 0, 0, 0, 0, 0, 0, 0, 0, 0, 0⟩

/-- `NumericStats::update`: NaN and infinite inputs return with no state
change; finite inputs run Welford's higher-order update. -/
def numUpdate (s : NumericStats) (val : F) : NumericStats :=
  if val.isNan = true ∨ val.isInfinite = true then s
  else
    let v := val.toRat
    let n_prev : ℚ := (s.count : ℚ)
    let count := s.count + 1
    let n : ℚ := (count : ℚ)
    let delta := v - s.mean
    let delta_n := delta / n
    let delta_n2 := delta_n * delta_n
    let term1 := delta * delta_n * n_prev
    { s with
      count := count
      sum := s.sum + v
      min := if F.ltF v s.min then F.fin v else s.min
      max := if F.gtF v s.max then F.fin v else s.max
      mean := s.mean + delta_n
      m4 := s.m4 + term1 * delta_n2 * (n * n - 3 * n + 3)
            + 6 * delta_n2 * s.m2 - 4 * delta_n * s.m3
      m3 := s.m3 + term1 * delta_n * (n - 2) - 3 * delta_n * s.m2
      m2 := s.m2 + term1 }

/-- Linear-interpolation quantile over a sorted sample
(`NumericStats::get_quantile`). -/
def get_quantile (sorted_samples : List ℚ) (q : ℚ) : ℚ :=
  let n := sorted_samples.length
  if n = 0 then 0
  else
    let pos := q * ((n - 1 : ℕ) : ℚ)
    let idx := pos.floor.toNat
    let fract := pos - (idx : ℚ)
    if idx + 1 < n then
      sorted_samples.getD idx 0 * (1 - fract) + sorted_samples.getD (idx + 1) 0 * fract
    else sorted_samples.getD idx 0

/-- Ascending insertion used to model the stable `sort_by(partial_cmp)`. -/
def insertAsc (x : ℚ) : List ℚ → List ℚ
  | [] => [x]
  | y :: ys => if y ≤ x then y :: insertAsc x ys else x :: y :: ys

/-- Ascending stable sort of the reservoir sample. -/
def sortAsc : List ℚ → List ℚ
  | [] => []
  | x :: xs => insertAsc x (sortAsc xs)

/-- `NumericStats::finalize`: with more than one observation, set
`variance = m2/(n-1)` and `std_dev = √variance`; with positive `m2` also
`skewness = √n·m3/m2^1.5` and `kurtosis = n·m4/m2² − 3`.  Then, with a
nonempty sample, sort it and fill the quantile fields. -/
noncomputable def numFinalize (s : NumericStats) (samples : List ℚ) : NumericStats :=
  let s1 :=
    if 1 < s.count then
      let n : ℝ := (s.count : ℝ)
      let variance : ℝ := ((s.m2 : ℚ) : ℝ) / (n - 1)
      let s' := { s with variance := variance, std_dev := Real.sqrt variance }
      if 0 < s.m2 then
        { s' with
          skewness := Real.sqrt n * ((s.m3 : ℚ) : ℝ) / ((s.m2 : ℚ) : ℝ) ^ ((3 : ℝ) / 2)
          kurtosis := n * ((s.m4 : ℚ) : ℝ) / (((s.m2 : ℚ) : ℝ) * ((s.m2 : ℚ) : ℝ)) - 3 }
      else s'
    else s
  if samples.isEmpty then s1
  else
    let values := sortAsc samples
    { s1 with
      median := get_quantile values (1 / 2)
      p25 := get_quantile values (1 / 4)
      p75 := get_quantile values (3 / 4)
      p90 := get_quantile values (9 / 10)
      p95 := get_quantile values (19 / 20)
      p99 := get_quantile values (99 / 100) }

/-! ## PII pattern detection (`quality/patterns.rs`)

The content regexes of the source are compiled by the external `regex`
crate.  Each is modelled here as an executable matcher over `List Char`,
faithful to the pattern text: `is_match` holds iff a match exists at some
position, `\b` is a word/non-word boundary (`\w = [A-Za-z0-9_]`), classes
are as written, and counted repetitions are tried exhaustively. -/

/-- Severity of a quality issue (`quality/mod.rs::Severity`). -/
inductive Severity where
  | info
  | warning
  | error
deriving DecidableEq, Repr

/-- A quality issue (`quality/mod.rs::QualityIssue`). -/
structure QualityIssue where
  id : List Char
  message : List Char
  severity : Severity
deriving DecidableEq, Repr

/-- PII pattern types (`PiiType`). -/
inductive PiiType where
  | email
  | phone
  | ssn
  | creditCard
  | ipAddress
  | dateOfBirth
  | postalCode
deriving DecidableEq, Repr

/-- `PiiType::as_str`. -/
def PiiType.asStr : PiiType → List Char
  | .email => ['e', 'm', 'a', 'i', 'l']
  | .phone => ['p', 'h', 'o', 'n', 'e', ' ', 'n', 'u', 'm', 'b', 'e', 'r']
  | .ssn => ['S', 'S', 'N']
  | .creditCard => ['c', 'r', 'e', 'd', 'i', 't', ' ', 'c', 'a', 'r', 'd']
  | .ipAddress => ['I', 'P', ' ', 'a', 'd', 'd', 'r', 'e', 's', 's']
  | .dateOfBirth => ['d', 'a', 't', 'e', ' ', 'o', 'f', ' ', 'b', 'i', 'r', 't', 'h']
  | .postalCode => ['p', 'o', 's', 't', 'a', 'l', ' ', 'c', 'o', 'd', 'e']

/-- `PiiType::severity`. -/
def PiiType.toSeverity : PiiType → Severity
  | .email => .warning
  | .phone => .warning
  | .ssn => .error
  | .creditCard => .error
  | .ipAddress => .warning
  | .dateOfBirth => .warning
  | .postalCode => .info

/-- Regex word character `\w`. -/
def isWordChar (c : Char) : Bool := c.isAlpha || c.isDigit || c = '_'

/-- Word boundary `\b` between the previous character (none at the start of
the haystack) and the first matched character. -/
def boundaryBefore (prev : Option Char) (c : Char) : Bool :=
  match prev with
  | none => isWordChar c
  | some p => xor (isWordChar p) (isWordChar c)

/-- Word boundary `\b` after a match whose last character is a word
character: the rest must start with a non-word character (or be empty). -/
def afterOk (rest : List Char) : Bool :=
  match rest with
  | [] => true
  | r :: _ => !isWordChar r

/-- Every match start position, with the character preceding it. -/
def tailsPAux : List Char → List (Option Char × List Char)
  | [] => []
  | c :: rest => (some c, rest) :: tailsPAux rest

/-- All (previous character, suffix) pairs of a haystack. -/
def tailsP (s : List Char) : List (Option Char × List Char) :=
  (none, s) :: tailsPAux s

/-- Consume one literal character. -/
def eatLit (c : Char) : List Char → Option (List Char)
  | x :: r => if x = c then some r else none
  | [] => none

/-- Consume exactly `k` digits. -/
def eatDigits (k : ℕ) (s : List Char) : Option (List Char) :=
  if (s.take k).length = k ∧ (s.take k).all Char.isDigit then some (s.drop k) else none

/-- Both outcomes of an optional (`?`) item. -/
def optStep (f : List Char → Option (List Char)) (s : List Char) : List (List Char) :=
  s :: (f s).toList

/-- Separator class `[-.\s]` of the phone pattern. -/
def eatPhoneSep : List Char → Option (List Char)
  | x :: r => if x = '-' || x = '.' || isWs x then some r else none
  | [] => none

/-- Separator class `[\s-]` of the credit-card pattern. -/
def eatCcSep : List Char → Option (List Char)
  | x :: r => if isWs x || x = '-' then some r else none
  | [] => none

/-- First character class of the email pattern, `(?i)[A-Z0-9._%+-]`. -/
def emailClass1 (c : Char) : Bool :=
  c.isAlpha || c.isDigit || c = '.' || c = '_' || c = '%' || c = '+' || c = '-'

/-- Second character class of the email pattern, `(?i)[A-Z0-9.-]`. -/
def emailClass2 (c : Char) : Bool := c.isAlpha || c.isDigit || c = '.' || c = '-'

/-- A match of `(?i)\b[A-Z0-9._%+-]+@[A-Z0-9.-]+\.[A-Z]{2,}\b` starting at
the head of `s`. -/
def tryEmail (prev : Option Char) (s : List Char) : Bool :=
  match s with
  | [] => false
  | c :: _ =>
    boundaryBefore prev c &&
    (let m1 := (s.takeWhile emailClass1).length
     (List.range' 1 m1).any fun a =>
       match s.drop a with
       | '@' :: rest1 =>
         let m2 := (rest1.takeWhile emailClass2).length
         (List.range' 1 m2).any fun b =>
           match rest1.drop b with
           | '.' :: rest2 =>
             let t := (rest2.takeWhile Char.isAlpha).length
             decide (2 ≤ t) && afterOk (rest2.drop t)
           | _ => false
       | _ => false)

/-- `EMAIL_REGEX.is_match`. -/
def emailIsMatch (s : List Char) : Bool := (tailsP s).any fun p => tryEmail p.1 p.2

/-- A match of `(?:\+?1[-.\s]?)?\(?\d{3}\)?[-.\s]?\d{3}[-.\s]?\d{4}` starting
at the head of `s` (the pattern has no anchors or boundaries). -/
def tryPhone (s : List Char) : Bool :=
  let starts : List (List Char) :=
    s :: (((optStep (eatLit '+') s).filterMap (eatLit '1')).flatMap (optStep eatPhoneSep))
  starts.any fun s1 =>
    (optStep (eatLit '(') s1).any fun s2 =>
      match eatDigits 3 s2 with
      | none => false
      | some s3 =>
        (optStep (eatLit ')') s3).any fun s4 =>
          (optStep eatPhoneSep s4).any fun s5 =>
            match eatDigits 3 s5 with
            | none => false
            | some s6 =>
              (optStep eatPhoneSep s6).any fun s7 => (eatDigits 4 s7).isSome

/-- `PHONE_REGEX.is_match`. -/
def phoneIsMatch (s : List Char) : Bool := s.tails.any tryPhone

/-- `SSN_REGEX.is_match`: the whole string is `^\d{3}-\d{2}-\d{4}$`. -/
def ssnIsMatch (s : List Char) : Bool :=
  match s with
  | [a, b, c, d, e, f, g, h, i, j, k] =>
    a.isDigit && b.isDigit && c.isDigit && d = '-' && e.isDigit && f.isDigit &&
    g = '-' && h.isDigit && i.isDigit && j.isDigit && k.isDigit
  | _ => false

/-- A match of `\b\d{4}[\s-]?\d{4}[\s-]?\d{4}[\s-]?\d{4,7}\b` starting at
the head of `s`. -/
def tryCreditCard (prev : Option Char) (s : List Char) : Bool :=
  match s with
  | [] => false
  | c :: _ =>
    boundaryBefore prev c &&
    (match eatDigits 4 s with
     | none => false
     | some s1 =>
       (optStep eatCcSep s1).any fun s2 =>
         match eatDigits 4 s2 with
         | none => false
         | some s3 =>
           (optStep eatCcSep s3).any fun s4 =>
             match eatDigits 4 s4 with
             | none => false
             | some s5 =>
               (optStep eatCcSep s5).any fun s6 =>
                 (List.range' 4 4).any fun k =>
                   match eatDigits k s6 with
                   | none => false
                   | some s7 => afterOk s7)

/-- `CREDIT_CARD_REGEX.is_match`. -/
def creditCardIsMatch (s : List Char) : Bool :=
  (tailsP s).any fun p => tryCreditCard p.1 p.2

/-- A match of `\b(?:[0-9]{1,3}\.){3}[0-9]{1,3}\b` starting at the head. -/
def tryIp (prev : Option Char) (s : List Char) : Bool :=
  match s with
  | [] => false
  | c :: _ =>
    boundaryBefore prev c &&
    ((List.range' 1 3).any fun k1 =>
      match (eatDigits k1 s).bind (eatLit '.') with
      | none => false
      | some s1 =>
        (List.range' 1 3).any fun k2 =>
          match (eatDigits k2 s1).bind (eatLit '.') with
          | none => false
          | some s2 =>
            (List.range' 1 3).any fun k3 =>
              match (eatDigits k3 s2).bind (eatLit '.') with
              | none => false
              | some s3 =>
                (List.range' 1 3).any fun k4 =>
                  match eatDigits k4 s3 with
                  | none => false
                  | some s4 => afterOk s4)

/-- `IP_ADDRESS_REGEX.is_match`. -/
def ipIsMatch (s : List Char) : Bool := (tailsP s).any fun p => tryIp p.1 p.2

/-- A match of the DOB pattern starting at the head: `\b(19|20)\d{2}`, a
dash or slash, `0[1-9]|1[0-2]`, a dash or slash, `0[1-9]|[12]\d|3[01]`,
`\b`. -/
def tryDob (prev : Option Char) (s : List Char) : Bool :=
  match s with
  | c0 :: c1 :: c2 :: c3 :: c4 :: c5 :: c6 :: c7 :: c8 :: c9 :: rest =>
    boundaryBefore prev c0 &&
    ((c0 = '1' && c1 = '9') || (c0 = '2' && c1 = '0')) &&
    c2.isDigit && c3.isDigit &&
    (c4 = '-' || c4 = '/') &&
    ((c5 = '0' && c6.isDigit && c6 ≠ '0') || (c5 = '1' && (c6 = '0' || c6 = '1' || c6 = '2'))) &&
    (c7 = '-' || c7 = '/') &&
    ((c8 = '0' && c9.isDigit && c9 ≠ '0') || ((c8 = '1' || c8 = '2') && c9.isDigit) ||
      (c8 = '3' && (c9 = '0' || c9 = '1'))) &&
    afterOk rest
  | _ => false

/-- `DOB_REGEX.is_match`. -/
def dobIsMatch (s : List Char) : Bool := (tailsP s).any fun p => tryDob p.1 p.2

/-- A match of `\b\d{5}(?:-\d{4})?\b` starting at the head. -/
def tryUsPostal (prev : Option Char) (s : List Char) : Bool :=
  match s with
  | [] => false
  | c :: _ =>
    boundaryBefore prev c &&
    (match eatDigits 5 s with
     | none => false
     | some s1 =>
       afterOk s1 ||
       (match (eatLit '-' s1).bind (eatDigits 4) with
        | none => false
        | some s2 => afterOk s2))

/-- `US_POSTAL_REGEX.is_match`. -/
def usPostalIsMatch (s : List Char) : Bool := (tailsP s).any fun p => tryUsPostal p.1 p.2

/-- A match of `(?i)\b[A-Z]\d[A-Z]\s?\d[A-Z]\d\b` starting at the head. -/
def tryCaPostal (prev : Option Char) (s : List Char) : Bool :=
  match s with
  | l1 :: d1 :: l2 :: rest =>
    boundaryBefore prev l1 && l1.isAlpha && d1.isDigit && l2.isAlpha &&
    ((match rest with
      | d2 :: l3 :: d3 :: rest2 =>
        d2.isDigit && l3.isAlpha && d3.isDigit && afterOk rest2
      | _ => false) ||
     (match rest with
      | w :: d2 :: l3 :: d3 :: rest2 =>
        isWs w && d2.isDigit && l3.isAlpha && d3.isDigit && afterOk rest2
      | _ => false))
  | _ => false

/-- `CANADIAN_POSTAL_REGEX.is_match`. -/
def caPostalIsMatch (s : List Char) : Bool := (tailsP s).any fun p => tryCaPostal p.1 p.2

/-- Characters of a string literal (notation convenience for concrete
inputs). -/
def strChars (s : String) : List Char := s.data

/-- `detect_pii_from_column_name`: keyword heuristics over the lowercased
column name, in the source's order, with the source's exclusions. -/
def detect_pii_from_column_name (name : List Char) : Option PiiType :=
  let nl := strLower name
  if containsSub nl (strChars "email") || containsSub nl (strChars "e_mail") ||
     containsSub nl (strChars "e-mail") then some .email
  else if containsSub nl (strChars "phone") || containsSub nl (strChars "mobile") ||
     containsSub nl (strChars "cell") || containsSub nl (strChars "tel") ||
     containsSub nl (strChars "fax") then some .phone
  else if containsSub nl (strChars "ssn") || containsSub nl (strChars "social_security") ||
     containsSub nl (strChars "socialsecurity") ||
     containsSub nl (strChars "social-security") then some .ssn
  else if containsSub nl (strChars "ip_address") || containsSub nl (strChars "ipaddress") ||
     containsSub nl (strChars "ip_addr") || containsSub nl (strChars "client_ip") ||
     containsSub nl (strChars "user_ip") || containsSub nl (strChars "server_ip") ||
     containsSub nl (strChars "source_ip") || containsSub nl (strChars "dest_ip") ||
     containsSub nl (strChars "remote_ip") || nl = strChars "ip" then some .ipAddress
  else if containsSub nl (strChars "address") || containsSub nl (strChars "street") ||
     containsSub nl (strChars "zip") || containsSub nl (strChars "postal") ||
     containsSub nl (strChars "postcode") then some .postalCode
  else if containsSub nl (strChars "dob") || containsSub nl (strChars "birth") ||
     containsSub nl (strChars "birthdate") || containsSub nl (strChars "date_of_birth") ||
     containsSub nl (strChars "dateofbirth") then some .dateOfBirth
  else if (containsSub nl (strChars "name") || containsSub nl (strChars "first_name") ||
     containsSub nl (strChars "last_name") || containsSub nl (strChars "firstname") ||
     containsSub nl (strChars "lastname") || containsSub nl (strChars "fullname")) &&
     !containsSub nl (strChars "file") && !containsSub nl (strChars "path") &&
     !containsSub nl (strChars "table") && !containsSub nl (strChars "column") &&
     !containsSub nl (strChars "host") then none
  else none

/-- `detect_pii_pattern_with_column_name`: count regex matches over at most
100 samples (each trimmed; the SSN counter additionally requires length 11
and exactly 9 digits, the credit-card counter length > 13), compute the
threshold `max(⌊0.3·sample_size⌋, 1)`, and test the counters in severity
order; the DoB threshold is halved (min 1) when the column-name hint says
DoB, postal requires the hint, and when no counter fires the hint itself is
returned as the fallback. -/
def detect_pii_pattern_with_column_name (values : List (List Char))
    (column_name : Option (List Char)) : Option PiiType :=
  if values.isEmpty then none
  else
    let sample := values.take 100
    let sample_size := sample.length
    let email_matches := sample.countP fun v => emailIsMatch (strTrim v)
    let phone_matches := sample.countP fun v => phoneIsMatch (strTrim v)
    let ssn_matches := sample.countP fun v =>
      let t := strTrim v
      t.length = 11 ∧ (t.filter Char.isDigit).length = 9 ∧ ssnIsMatch t = true
    let cc_matches := sample.countP fun v =>
      let t := strTrim v
      13 < t.length ∧ creditCardIsMatch t = true
    let ip_matches := sample.countP fun v => ipIsMatch (strTrim v)
    let dob_matches := sample.countP fun v => dobIsMatch (strTrim v)
    let postal_matches := sample.countP fun v =>
      usPostalIsMatch (strTrim v) || caPostalIsMatch (strTrim v)
    let threshold := max (3 * sample_size / 10) 1
    let column_hint := column_name.bind detect_pii_from_column_name
    if threshold ≤ ssn_matches then some .ssn
    else if threshold ≤ cc_matches then some .creditCard
    else if threshold ≤ email_matches then some .email
    else if threshold ≤ phone_matches then some .phone
    else if threshold ≤ ip_matches then some .ipAddress
    else
      let dob_threshold := if column_hint = some .dateOfBirth then max (threshold / 2) 1
        else threshold
      if dob_threshold ≤ dob_matches then some .dateOfBirth
      else if threshold ≤ postal_matches ∧ column_hint = some .postalCode then
        some .postalCode
      else column_hint

/-- `detect_pii_pattern`: the content-only entry point — it forwards `None`
as the column name, so the name heuristic can never contribute. -/
def detect_pii_pattern (values : List (List Char)) : Option PiiType :=
  detect_pii_pattern_with_column_name values none

/-- `PiiType::as_str` with spaces replaced by underscores, as
`check_pii_issues` builds the issue id. -/
def piiIdPart (p : PiiType) : List Char :=
  p.asStr.map fun c => if c = ' ' then '_' else c

/-- `check_pii_issues`. -/
def check_pii_issues (pii_type : Option PiiType) (column_name : List Char) :
    List QualityIssue :=
  match pii_type with
  | none => []
  | some pii =>
    [{ id := column_name ++ strChars "_pii_" ++ piiIdPart pii
       message := strChars "Potential PII detected: " ++ pii.asStr
       severity := pii.toSeverity }]

/-- The PII step of `ColumnProfile::calculate_quality_metrics` (lines
280–288 of `stats/mod.rs`): with a nonempty sample buffer it calls the
content-only `detect_pii_pattern` — the column name is not passed — and
turns the result into issues. -/
def profilePiiIssues (pii_samples : List (List Char)) (name : List Char) :
    List QualityIssue :=
  if pii_samples.isEmpty then []
  else check_pii_issues (detect_pii_pattern pii_samples) name

/-! ## Column profile (`stats/mod.rs::ColumnProfile`) -/

/-- `stats/types.rs::DataType`. -/
inductive DataType where
  | integer
  | numeric
  | string
  | boolean
  | date
  | null
deriving DecidableEq, Repr

/-- `stats/types.rs::BaseStats`. -/
structure BaseStats where
  count : ℕ
  missing : ℕ
  distinct_estimate : ℕ
  inferred_type : DataType
deriving DecidableEq, Repr

/-- A histogram bin (`HistogramBin`; `end` is a Lean keyword, so that field
is called `stop`). -/
structure HistogramBin where
  start : ℚ
  stop : ℚ
  count : ℕ
deriving DecidableEq, Repr

/-- A finalized histogram (`Histogram`). -/
structure Histogram where
  bins : List HistogramBin
  min : F
  max : F
  bin_width : ℚ
deriving DecidableEq, Repr

/-- `quality/mod.rs::ColumnQualityMetrics`. -/
structure ColumnQualityMetrics where
  completeness : ℚ
  uniqueness : ℚ
  issues : List QualityIssue
  score : ℚ
deriving DecidableEq, Repr

/-- State of `HistogramAccumulator` (the reservoir).  Values are kept as
`F` because the source pushes any `f64`, including non-finite ones, into
the reservoir. -/
structure HistAcc where
  samples : List F
  max_samples : ℕ
  count : ℕ
deriving DecidableEq, Repr

/-- `HistogramAccumulator::new`. -/
def histAccNew (max_samples : ℕ) : HistAcc := ⟨[], max_samples, 0⟩

/-- `HistogramAccumulator::update`: fill to capacity, then replace index
`j = ((count·1103515245 + 12345) mod 2^64) mod count` (u64/usize wrapping
on a 64-bit target) when `j` falls inside the buffer. -/
def histAccUpdate (a : HistAcc) (val : F) : HistAcc :=
  let count := a.count + 1
  if a.samples.length < a.max_samples then
    { a with count := count, samples := a.samples ++ [val] }
  else
    let j := ((count * 1103515245 + 12345) % 2 ^ 64) % (count % 2 ^ 64)
    if j < a.max_samples then { a with count := count, samples := a.samples.set j val }
    else { a with count := count }

/-- Digits to a natural number. -/
def natOfDigits (ds : List Char) : ℕ := ds.foldl (fun a c => 10 * a + (c.toNat - 48)) 0

/-- Rust `str::parse::<i64>`: optional sign, all digits, within the i64
range. -/
def parseI64 (s : List Char) : Option ℤ :=
  let core := fun (sign : ℤ) (ds : List Char) =>
    if ds ≠ [] ∧ ds.all Char.isDigit then
      let v : ℤ := sign * (natOfDigits ds : ℤ)
      if -(2 : ℤ) ^ 63 ≤ v ∧ v ≤ 2 ^ 63 - 1 then some v else none
    else none
  match s with
  | '+' :: rest => core 1 rest
  | '-' :: rest => core (-1) rest
  | _ => core 1 s

/-- Exponent part of a float literal (after `e`/`E`): optional sign and
digits, consuming the whole rest. -/
def parseExpPart (s : List Char) : Option ℤ :=
  match s with
  | '+' :: ds => if ds ≠ [] ∧ ds.all Char.isDigit then some (natOfDigits ds : ℤ) else none
  | '-' :: ds => if ds ≠ [] ∧ ds.all Char.isDigit then some (-(natOfDigits ds : ℤ)) else none
  | ds => if ds ≠ [] ∧ ds.all Char.isDigit then some (natOfDigits ds : ℤ) else none

/-- Significand value continued by an optional exponent; must consume all. -/
def parseNumTail (m : ℚ) : List Char → Option ℚ
  | [] => some m
  | 'e' :: rest => (parseExpPart rest).map fun e => m * (10 : ℚ) ^ e
  | 'E' :: rest => (parseExpPart rest).map fun e => m * (10 : ℚ) ^ e
  | _ => none

/-- Value of a fractional digit run. -/
def fracVal (ds : List Char) : ℚ := (natOfDigits ds : ℚ) / (10 : ℚ) ^ ds.length

/-- Unsigned finite float body: `digits [. [digits]] [exp]` or
`. digits [exp]`. -/
def parseUF (s : List Char) : Option ℚ :=
  let intDs := s.takeWhile Char.isDigit
  let rest := s.drop intDs.length
  if intDs.isEmpty then
    match rest with
    | '.' :: r2 =>
      let fds := r2.takeWhile Char.isDigit
      if fds.isEmpty then none
      else parseNumTail (fracVal fds) (r2.drop fds.length)
    | _ => none
  else
    match rest with
    | '.' :: r2 =>
      let fds := r2.takeWhile Char.isDigit
      parseNumTail ((natOfDigits intDs : ℚ) + fracVal fds) (r2.drop fds.length)
    | r => parseNumTail (natOfDigits intDs : ℚ) r

/-- Rust `str::parse::<f64>`: optional sign, then `inf`/`infinity`/`nan`
(case-insensitive) or a finite literal.  Finite values are modelled exactly
(the claims do not depend on binary rounding). -/
def parseF64 (s : List Char) : Option F :=
  let core := fun (neg : Bool) (body : List Char) =>
    let bl := strLower body
    if bl = strChars "inf" ∨ bl = strChars "infinity" then
      some (if neg then F.negInf else F.posInf)
    else if bl = strChars "nan" then some F.nan
    else (parseUF body).map fun q => F.fin (if neg then -q else q)
  match s with
  | '+' :: rest => core false rest
  | '-' :: rest => core true rest
  | _ => core false s

/-- The missing-cell test of `ColumnProfile::update` on the trimmed cell:
empty, or case-insensitively `null` or `n/a`. -/
def isMissingCell (trimmed : List Char) : Bool :=
  trimmed.isEmpty || strLower trimmed = strChars "null" || strLower trimmed = strChars "n/a"

/-- `ColumnProfile::is_date`. -/
def is_date (s : List Char) : Bool :=
  (s.any (fun c => c = '-') || s.any (fun c => c = '/')) &&
  decide (8 ≤ s.length) && s.any Char.isDigit

/-- State of `ColumnProfile`.  The cardinality sketch (external
`hyperloglogplus` crate) is modelled by its input stream: the list of
inserted values. -/
structure ColumnProfile where
  name : List Char
  base_stats : BaseStats
  numeric_stats : Option NumericStats
  categorical_stats : Option CategoricalStats
  histogram : Option Histogram
  min_length : Option ℕ
  max_length : Option ℕ
  notes : List (List Char)
  quality_metrics : Option ColumnQualityMetrics
  hll : List (List Char)
  hist_acc : Option HistAcc
  cat_acc : CatAcc
  integer_count : ℕ
  numeric_count : ℕ
  boolean_count : ℕ
  date_count : ℕ
  total_valid : ℕ
  sample_values : List (List Char)
  pii_samples : List (List Char)
  missing_rows : List ℕ
  pii_rows : List ℕ
  outlier_rows : List ℕ

/-- `ColumnProfile::new`. -/
def profileNew (name : List Char) : ColumnProfile :=
  { name := name
    base_stats := ⟨0, 0, 0, .null⟩
    numeric_stats := none
    categorical_stats := none
    histogram := none
    min_length := none
    max_length := none
    notes := []
    quality_metrics := none
    hll := []
    hist_acc := none
    cat_acc := catNew 1000
    integer_count := 0
    numeric_count := 0
    boolean_count := 0
    date_count := 0
    total_valid := 0
    sample_values := []
    pii_samples := []
    missing_rows := []
    pii_rows := []
    outlier_rows := [] }

/-- `ColumnProfile::update_numeric`: lazily create the moment accumulator
and the reservoir, then update both. -/
def updateNumeric (p : ColumnProfile) (val : F) : ColumnProfile :=
  let base :=
    match p.numeric_stats with
    | none => { p with numeric_stats := some numericNew, hist_acc := some (histAccNew 1000) }
    | some _ => p
  { base with
    numeric_stats := base.numeric_stats.map fun st => numUpdate st val
    hist_acc := base.hist_acc.map fun a => histAccUpdate a val }

/-- `ColumnProfile::infer_and_update`: i64 first (also counts as numeric),
then f64, then boolean literals, then the date shape; otherwise plain
string (no counter). -/
def inferAndUpdate (p : ColumnProfile) (trimmed : List Char) : ColumnProfile :=
  match parseI64 trimmed with
  | some _ =>
    updateNumeric
      { p with integer_count := p.integer_count + 1, numeric_count := p.numeric_count + 1 }
      ((parseF64 trimmed).getD (F.fin 0))
  | none =>
    match parseF64 trimmed with
    | some val => updateNumeric { p with numeric_count := p.numeric_count + 1 } val
    | none =>
      let lower := strLower trimmed
      if lower = strChars "true" ∨ lower = strChars "false" ∨ lower = strChars "t" ∨
          lower = strChars "f" then
        { p with boolean_count := p.boolean_count + 1 }
      else if is_date trimmed then { p with date_count := p.date_count + 1 }
      else p

/-- `ColumnProfile::update`: count the cell; a missing cell only bumps
`missing` and (below the 1000 cap) records the row index, then returns; a
valid cell feeds the sketch, the categorical accumulator, the sample
buffers, the length extremes and type inference. -/
def profileUpdate (p : ColumnProfile) (value : List Char) (row_index : ℕ) : ColumnProfile :=
  let p0 := { p with base_stats := { p.base_stats with count := p.base_stats.count + 1 } }
  let trimmed := strTrim value
  if isMissingCell trimmed then
    let p1 :=
      { p0 with base_stats := { p0.base_stats with missing := p0.base_stats.missing + 1 } }
    if p1.missing_rows.length < 1000 then
      { p1 with missing_rows := p1.missing_rows ++ [row_index] }
    else p1
  else
    let p1 := { p0 with
      total_valid := p0.total_valid + 1
      hll := p0.hll ++ [trimmed]
      cat_acc := catUpdate p0.cat_acc trimmed }
    let p2 :=
      if p1.sample_values.length < 5 ∧ ¬ trimmed ∈ p1.sample_values then
        { p1 with sample_values := p1.sample_values ++ [trimmed] }
      else p1
    let p3 :=
      if p2.pii_samples.length < 100 then
        let p3a := { p2 with pii_samples := p2.pii_samples ++ [trimmed] }
        if p3a.pii_rows.length < 100 then { p3a with pii_rows := p3a.pii_rows ++ [row_index] }
        else p3a
      else p2
    let len := trimmed.length
    let p4 := { p3 with
      min_length :=
        match p3.min_length with
        | none => some len
        | some m => if len < m then some len else p3.min_length
      max_length :=
        match p3.max_length with
        | none => some len
        | some m => if m < len then some len else p3.max_length }
    inferAndUpdate p4 trimmed

/-! ## Session (`lib.rs::DataCertProfiler`) -/

/-- Reduced model of `stats/profiler.rs::Profiler` for the session-level
error-handling claim: header ownership and the row count.  The per-column
profile folding and duplicate detection consume the same rows but cannot
influence whether `finalize` errors, and are elided. -/
structure SessionProfiler where
  headers : List (List Char)
  total_rows : ℕ
deriving DecidableEq, Repr

/-- `Profiler::new`. -/
def profilerNew (headers : List (List Char)) : SessionProfiler := ⟨headers, 0⟩

/-- `Profiler::update_batch` (row accounting). -/
def profilerUpdateBatch (p : SessionProfiler) (rows : List (List (List Char))) :
    SessionProfiler :=
  { p with total_rows := p.total_rows + rows.length }

/-- `lib.rs::DataCertProfiler`: a CSV parser plus a profiler created on
first header discovery. -/
structure DataCertProfiler where
  parser : CsvState
  profiler : Option SessionProfiler
deriving DecidableEq, Repr

/-- `DataCertProfiler::new`. -/
def dcpNew (delimiter : Option Char) (has_headers : Bool) : DataCertProfiler :=
  ⟨csvNew delimiter has_headers, none⟩

/-- `DataCertProfiler::parse_and_profile_chunk`: parse, instantiate the
profiler the first time nonempty headers come back, feed the batch. -/
def parse_and_profile_chunk (st : DataCertProfiler) (chunk : List Char) :
    DataCertProfiler × ParseResult :=
  let r := parse_chunk st.parser chunk
  let prof0 :=
    match st.profiler with
    | none => if r.2.headers.isEmpty then none else some (profilerNew r.2.headers)
    | some p => some p
  let prof := prof0.map fun p => profilerUpdateBatch p r.2.rows
  (⟨r.1, prof⟩, r.2)

/-- `DataCertProfiler::finalize`: flush the parser, feed the leftover rows,
and return the report — or the `No data was processed` error (modelled as
`none`) when the profiler was never created. -/
def sessionFinalize (st : DataCertProfiler) : Option SessionProfiler :=
  let f := csvFlush st.parser
  match st.profiler with
  | some p => some (profilerUpdateBatch p f.2.rows)
  | none => none

/-- A whole ingest session over a list of chunks. -/
def runSession (chunks : List (List Char)) (delimiter : Option Char) (has_headers : Bool) :
    DataCertProfiler :=
  chunks.foldl (fun st c => (parse_and_profile_chunk st c).1) (dcpNew delimiter has_headers)

/-! ## Concrete instances used by the theorems -/

/-- Two rows, both columns valid, for the correlation update comparison. -/
def c1rows : List (List (Option ℚ)) := [[some 0, some 0], [some 2, some 2]]

/-- Nine rows over columns `(a, b)`: the first three have both values, the
remaining six have `a = 0` and `b` missing, so the per-column counts
(9 and 3) differ from the pair count (3). -/
def c3rows : List (List (Option ℚ)) :=
  [[some (-3), some 0], [some 3, some 1], [some 0, some 2],
   [some 0, none], [some 0, none], [some 0, none],
   [some 0, none], [some 0, none], [some 0, none]]

/-- The correlation state the source's `update` reaches on `c3rows`. -/
def c3state : CorrAcc := c3rows.foldl corrUpdate (corrNew 2)

/-- Sample buffer of random text matching no PII regex (the strings of the
repository's own `test_column_name_fallback`). -/
def c5samples : List (List Char) :=
  [strChars "random text", strChars "some data", strChars "other values"]

/-- Categorical accumulator after observing `a` then `b` once each. -/
def c8acc : CatAcc := ([strChars "a", strChars "b"]).foldl catUpdate (catNew 1000)

/-- An accumulator state whose per-column counts both equal the pair count
(no missing values), with perfect-square variance product. -/
def c3agree : CorrAcc := ⟨2, [3, 3, 3, 3], [1, 1], [2, 8], [0, 1, 1, 0], [3, 3]⟩

/-- The claim's description of delimiter auto-detection, formalized from
its words: each candidate's records are the first (up to) 10 record lines;
a candidate is scored `record_count × first_record_field_count` exactly
when all its records share one field count greater than 1; the highest
score wins, and any tie for the highest score returns the comma. -/
def specAutoDetectClaim (data : List Char) : Char :=
  let cands : List Char := [',', '\t', ';', '|']
  let specScore := fun (delim : Char) =>
    match ((allRecordLines data).take 10).map fun l => (fieldsOf delim l).length with
    | [] => 0
    | w :: rest => if 1 < w ∧ rest.all fun x => x = w then (rest.length + 1) * w else 0
  let scores := cands.map specScore
  let m := scores.foldl max 0
  if 1 < scores.countP fun x => x = m then ','
  else
    match cands.find? fun c => specScore c = m with
    | some c => c
    | none => ','

/-! ## Theorems -/

/-- C4 counterexample: `calculate_uniqueness` applies no clamp, so with a
distinct estimate of 20 over 10 non-missing cells the uniqueness ratio is
2, exceeding 1.0 — against the claim's "in all cases never exceeds 1.0". -/
theorem calculate_uniqueness_exceeds_one : 1 < calculate_uniqueness 10 0 20 := by
  norm_num [calculate_uniqueness]

/-- C4 (amended): the uniqueness ratio equals
`distinct_estimate / (count − missing)` (saturating subtraction) when the
non-missing count is positive and 1.0 when it is zero; the result is *not*
clamped and can exceed 1.0 when the distinct estimate exceeds the
non-missing count. -/
theorem calculate_uniqueness_formula (count missing distinct : ℕ) :
    (count - missing ≠ 0 →
      calculate_uniqueness count missing distinct =
        (distinct : ℚ) / ((count - missing : ℕ) : ℚ)) ∧
    (count - missing = 0 → calculate_uniqueness count missing distinct = 1) := by
  constructor <;> intro h <;> simp [calculate_uniqueness, h]

/-- C4 witness: the formula evaluated at the source's own test points. -/
theorem calculate_uniqueness_formula_witness :
    calculate_uniqueness 100 15 80 = (80 : ℚ) / 85 ∧ calculate_uniqueness 5 7 0 = 1 := by
  refine ⟨?_, (calculate_uniqueness_formula 5 7 0).2 (by decide)⟩
  have h := (calculate_uniqueness_formula 100 15 80).1 (by decide)
  norm_num at h
  norm_num [h]

/-- C5: in the column-profile path, PII detection at finalize calls the
content-only `detect_pii_pattern`, which passes `None` as the column name;
for a column named `email_address` whose 3 samples are random text matching
no PII regex the profile path yields no issue at all, even though
`detect_pii_pattern_with_column_name` — which the claim describes — would
return the email type from the name fallback. -/
theorem profile_pii_name_fallback_unused :
    profilePiiIssues c5samples (strChars "email_address") = [] ∧
    detect_pii_pattern c5samples = none ∧
    detect_pii_pattern_with_column_name c5samples (some (strChars "email_address")) =
      some PiiType.email := by
  refine ⟨?_, by decide, by decide⟩
  decide

/-- C8: the finalized top-K order is not a function of the input sequence:
after observing `a` then `b` once each, the two tied entries come out in
whatever order the `HashMap` iterates its keys — both `[a, b]` and `[b, a]`
are iteration orders of exactly the accumulated key set, and they yield
different `top_values` lists, so ties are not broken by first insertion
order and two runs over the same sequence can differ. -/
theorem categorical_tie_order_follows_map_iteration :
    (catKeys c8acc).Perm [strChars "a", strChars "b"] ∧
    (catKeys c8acc).Perm [strChars "b", strChars "a"] ∧
    (catFinalizeWithOrder c8acc [strChars "a", strChars "b"]).top_values.map FreqEntry.value ≠
      (catFinalizeWithOrder c8acc [strChars "b", strChars "a"]).top_values.map
        FreqEntry.value := by
  refine ⟨by decide, by decide, by decide⟩

/-- C1: on the two rows `(0,0), (2,2)` the implemented update leaves the
off-diagonal co-moment at 1/2 — it skips the first paired observation and
scales `(x − μ_i_new)(y − μ_j_new)` by `(p−1)/p` — while the update the
claim states (`C += δ_x_old · (y − μ_j_new)` on every valid pair) yields
the true co-moment 2.  The pair count itself is incremented as claimed. -/
theorem corr_update_comoment_diverges :
    (c1rows.foldl corrUpdate (corrNew 2)).pair_counts.getD 1 0 = 2 ∧
    (c1rows.foldl specCorrUpdate (corrNew 2)).co_moments.getD 1 0 = 2 ∧
    (c1rows.foldl corrUpdate (corrNew 2)).co_moments.getD 1 0 = 1 / 2 ∧
    (1 / 2 : ℚ) ≠ 2 := by
  refine ⟨?_, ?_, ?_, by norm_num⟩ <;>
    norm_num [c1rows, corrUpdate, specCorrUpdate, corrWelfordPass, corrNew,
      List.range_succ, List.replicate_succ, List.set_cons_zero, List.set_cons_succ]

/-- Helper: `NumericStats::update` never writes the derived moment fields. -/
theorem numUpdate_preserves_derived (s : NumericStats) (v : F) :
    (numUpdate s v).variance = s.variance ∧ (numUpdate s v).std_dev = s.std_dev ∧
    (numUpdate s v).skewness = s.skewness ∧ (numUpdate s v).kurtosis = s.kurtosis := by
  unfold numUpdate
  split <;> simp

/-- Helper: folding `update` over any input list keeps the derived moment
fields of the start state. -/
theorem foldl_numUpdate_preserves_derived (vs : List F) (s : NumericStats) :
    (vs.foldl numUpdate s).variance = s.variance ∧
    (vs.foldl numUpdate s).std_dev = s.std_dev ∧
    (vs.foldl numUpdate s).skewness = s.skewness ∧
    (vs.foldl numUpdate s).kurtosis = s.kurtosis := by
  induction vs generalizing s with
  | nil => simp
  | cons v vs ih =>
    have h := numUpdate_preserves_derived s v
    have h2 := ih (numUpdate s v)
    simp only [List.foldl_cons]
    exact ⟨h2.1.trans h.1, h2.2.1.trans h.2.1, h2.2.2.1.trans h.2.2.1,
      h2.2.2.2.trans h.2.2.2⟩

/-- C9: `NumericStats::update` leaves the whole state unchanged on NaN or
infinite input, and for any accumulation whose observed count is ≤ 1 the
finalized variance, standard deviation, skewness and kurtosis are all 0. -/
theorem numeric_nonfinite_noop_and_degenerate_moments :
    (∀ (s : NumericStats) (v : F),
      v.isNan = true ∨ v.isInfinite = true → numUpdate s v = s) ∧
    (∀ (vs : List F) (samples : List ℚ),
      (vs.foldl numUpdate numericNew).count ≤ 1 →
      (numFinalize (vs.foldl numUpdate numericNew) samples).variance = 0 ∧
      (numFinalize (vs.foldl numUpdate numericNew) samples).std_dev = 0 ∧
      (numFinalize (vs.foldl numUpdate numericNew) samples).skewness = 0 ∧
      (numFinalize (vs.foldl numUpdate numericNew) samples).kurtosis = 0) := by
  constructor
  · intro s v h
    unfold numUpdate
    simp [h]
  · intro vs samples h
    have hpres := foldl_numUpdate_preserves_derived vs numericNew
    have h1 : ¬ 1 < (vs.foldl numUpdate numericNew).count := by omega
    unfold numFinalize
    simp only [h1, if_false]
    split <;>
      exact ⟨hpres.1, hpres.2.1, hpres.2.2.1, hpres.2.2.2⟩

/-- C9 witness: a NaN update on the fresh state is a no-op, and a single
finite observation finalizes with all four derived moments equal to 0. -/
theorem numeric_nonfinite_noop_and_degenerate_moments_witness :
    numUpdate numericNew F.nan = numericNew ∧
    ((numFinalize (([F.fin 5]).foldl numUpdate numericNew) []).variance = 0 ∧
     (numFinalize (([F.fin 5]).foldl numUpdate numericNew) []).std_dev = 0 ∧
     (numFinalize (([F.fin 5]).foldl numUpdate numericNew) []).skewness = 0 ∧
     (numFinalize (([F.fin 5]).foldl numUpdate numericNew) []).kurtosis = 0) :=
  ⟨numeric_nonfinite_noop_and_degenerate_moments.1 numericNew F.nan (Or.inl rfl),
   numeric_nonfinite_noop_and_degenerate_moments.2 [F.fin 5] [] (by decide)⟩

/-- C10: on a missing cell (empty after trim, or case-insensitive `null` or
`n/a`), `ColumnProfile::update` changes exactly the cell count, the missing
count and — while it is below the 1000 cap — the missing-rows list; every
other component (sketch input, categorical counts, length extremes, sample
buffers, type counters, numeric stats, reservoir, and the finalized/output
fields) is untouched. -/
theorem profile_update_missing_frame (p : ColumnProfile) (value : List Char)
    (row_index : ℕ) (h : isMissingCell (strTrim value) = true) :
    profileUpdate p value row_index =
      { p with
        base_stats := { p.base_stats with
          count := p.base_stats.count + 1
          missing := p.base_stats.missing + 1 }
        missing_rows :=
          if p.missing_rows.length < 1000 then p.missing_rows ++ [row_index]
          else p.missing_rows } := by
  unfold profileUpdate
  simp only [h, if_true]
  split <;> simp_all

/-- C10 witness: the frame property evaluated on the fresh profile and the
cell `" NULL "` (missing after trim and lowercasing). -/
theorem profile_update_missing_frame_witness :
    isMissingCell (strTrim (strChars " NULL ")) = true ∧
    profileUpdate (profileNew (strChars "col")) (strChars " NULL ") 7 =
      { profileNew (strChars "col") with
        base_stats := { (profileNew (strChars "col")).base_stats with
          count := (profileNew (strChars "col")).base_stats.count + 1
          missing := (profileNew (strChars "col")).base_stats.missing + 1 }
        missing_rows :=
          if (profileNew (strChars "col")).missing_rows.length < 1000 then
            (profileNew (strChars "col")).missing_rows ++ [7]
          else (profileNew (strChars "col")).missing_rows } :=
  ⟨by decide, profile_update_missing_frame (profileNew (strChars "col"))
    (strChars " NULL ") 7 (by decide)⟩

/-- Helper: the state `corrUpdate` reaches on `c3rows`, computed. -/
theorem c3state_eq :
    c3state = ⟨2, [9, 3, 3, 3], [0, 1], [18, 2], [9 / 2, 3 / 4, 3 / 4, 19 / 24], [9, 3]⟩ := by
  norm_num [c3state, c3rows, corrUpdate, corrWelfordPass, corrNew, List.range_succ,
    List.replicate_succ, List.set_cons_zero, List.set_cons_succ]

/-- C3 counterexample: on the state reached from `c3rows` (per-column
counts 9 and 3, pair count 3), the implemented finalize divides the
covariance `C/(p−1)` by the product of per-column sample deviations and
yields 1/4, while the claim's formula `C / √(M2_i·M2_j)` yields 1/8: the
`(n−1)` normalizers only cancel when the per-column counts equal the pair
count. -/
theorem corr_finalize_entry_counterexample :
    corrFinalizeEntry c3state 0 1 = 1 / 4 ∧ specCorrEntry c3state 0 1 = 1 / 8 ∧
    corrFinalizeEntry c3state 0 1 ≠ specCorrEntry c3state 0 1 := by
  have hv : Real.sqrt ((18 : ℝ) / 8) = 3 / 2 := by
    rw [show (18 : ℝ) / 8 = (3 / 2) ^ 2 by norm_num]
    exact Real.sqrt_sq (by norm_num)
  have hw : Real.sqrt ((2 : ℝ) / 2) = 1 := by
    rw [show (2 : ℝ) / 2 = 1 by norm_num]
    exact Real.sqrt_one
  have h36 : Real.sqrt (18 * 2 : ℝ) = 6 := by
    rw [show (18 * 2 : ℝ) = 6 ^ 2 by norm_num]
    exact Real.sqrt_sq (by norm_num)
  have h9 : Real.sqrt 9 = 3 := by
    rw [show (9 : ℝ) = 3 ^ 2 by norm_num]
    exact Real.sqrt_sq (by norm_num)
  have h4 : Real.sqrt 4 = 2 := by
    rw [show (4 : ℝ) = 2 ^ 2 by norm_num]
    exact Real.sqrt_sq (by norm_num)
  have h36' : Real.sqrt 36 = 6 := by
    rw [show (36 : ℝ) = 6 ^ 2 by norm_num]
    exact Real.sqrt_sq (by norm_num)
  have h1 : corrFinalizeEntry c3state 0 1 = 1 / 4 := by
    rw [c3state_eq]
    simp only [corrFinalizeEntry, List.getD]
    norm_num [hv, hw, h9, h4]
  have h2 : specCorrEntry c3state 0 1 = 1 / 8 := by
    rw [c3state_eq]
    simp only [specCorrEntry, List.getD]
    norm_num [h36, h36']
  refine ⟨h1, h2, ?_⟩
  rw [h1, h2]
  norm_num

/-- C3 (amended): the original claim additionally requires that both
per-column valid counts equal the pair count (no missing values among the
pair's rows) and the Welford invariant `M2 ≥ 0`.  Under those hypotheses
every entry is as the claim states: 1.0 on the diagonal, the clamped
`C_ij / √(M2_i·M2_j)` when `p_ij > 1` and `M2_i·M2_j > 0`, and 0.0
otherwise. -/
theorem corr_finalize_entry_matches_claim_when_counts_agree (acc : CorrAcc) (i j : ℕ)
    (hM2i : 0 ≤ acc.m2s.getD i 0) (hM2j : 0 ≤ acc.m2s.getD j 0)
    (hni : acc.column_counts.getD i 0 = acc.pair_counts.getD (i * acc.n + j) 0)
    (hnj : acc.column_counts.getD j 0 = acc.pair_counts.getD (i * acc.n + j) 0) :
    corrFinalizeEntry acc i j = specCorrEntry acc i j := by
  simp only [corrFinalizeEntry, specCorrEntry, hni, hnj]
  by_cases hij : i = j
  · simp [hij]
  · simp only [hij, if_false]
    set p := acc.pair_counts.getD (i * acc.n + j) 0 with hp
    set A := ((acc.m2s.getD i 0 : ℚ) : ℝ) with hA
    set B := ((acc.m2s.getD j 0 : ℚ) : ℝ) with hB
    set C := ((acc.co_moments.getD (i * acc.n + j) 0 : ℚ) : ℝ) with hC
    have hA0 : 0 ≤ A := by rw [hA]; exact_mod_cast hM2i
    have hB0 : 0 ≤ B := by rw [hB]; exact_mod_cast hM2j
    by_cases hcount : 1 < p
    · have hpR : (1 : ℝ) < (p : ℝ) := by exact_mod_cast hcount
      have hp1 : (0 : ℝ) < (p : ℝ) - 1 := by linarith
      simp only [hcount, if_true, true_and]
      by_cases hAB : 0 < A ∧ 0 < B
      · have hg1 : 0 < A / ((p : ℝ) - 1) := div_pos hAB.1 hp1
        have hg2 : 0 < B / ((p : ℝ) - 1) := div_pos hAB.2 hp1
        have hg3 : 0 < A * B := mul_pos hAB.1 hAB.2
        rw [if_pos ⟨hg1, hg2⟩, if_pos hg3]
        have hsA : Real.sqrt (A / ((p : ℝ) - 1)) =
            Real.sqrt A / Real.sqrt ((p : ℝ) - 1) := Real.sqrt_div hA0 _
        have hsB : Real.sqrt (B / ((p : ℝ) - 1)) =
            Real.sqrt B / Real.sqrt ((p : ℝ) - 1) := Real.sqrt_div hB0 _
        have hsAB : Real.sqrt (A * B) = Real.sqrt A * Real.sqrt B := Real.sqrt_mul hA0 B
        have hsqp : Real.sqrt ((p : ℝ) - 1) * Real.sqrt ((p : ℝ) - 1) = (p : ℝ) - 1 :=
          Real.mul_self_sqrt (le_of_lt hp1)
        have hsA0 : 0 < Real.sqrt A := Real.sqrt_pos.mpr hAB.1
        have hsB0 : 0 < Real.sqrt B := Real.sqrt_pos.mpr hAB.2
        have hsp0 : 0 < Real.sqrt ((p : ℝ) - 1) := Real.sqrt_pos.mpr hp1
        rw [hsA, hsB, hsAB, div_mul_div_comm, hsqp]
        have hABne : Real.sqrt A * Real.sqrt B ≠ 0 := (mul_pos hsA0 hsB0).ne'
        field_simp
      · have hne1 : ¬ (0 < A / ((p : ℝ) - 1) ∧ 0 < B / ((p : ℝ) - 1)) := by
          intro hcon
          have h1 : 0 < A := by
            have hm := mul_pos hcon.1 hp1
            rwa [div_mul_cancel₀ _ hp1.ne'] at hm
          have h2 : 0 < B := by
            have hm := mul_pos hcon.2 hp1
            rwa [div_mul_cancel₀ _ hp1.ne'] at hm
          exact hAB ⟨h1, h2⟩
        have hne2 : ¬ 0 < A * B := by
          intro hcon
          rcases lt_or_eq_of_le hA0 with hA' | hA'
          · rcases lt_or_eq_of_le hB0 with hB' | hB'
            · exact hAB ⟨hA', hB'⟩
            · rw [← hB'] at hcon
              simp at hcon
          · rw [← hA'] at hcon
            simp at hcon
        rw [if_neg hne1, if_neg hne2]
    · simp [hcount]

/-- C3 witness: the amended statement evaluated on `c3agree`, where both
column counts equal the pair count. -/
theorem corr_finalize_entry_matches_claim_witness :
    (0 : ℚ) ≤ c3agree.m2s.getD 0 0 ∧ (0 : ℚ) ≤ c3agree.m2s.getD 1 0 ∧
    c3agree.column_counts.getD 0 0 = c3agree.pair_counts.getD (0 * c3agree.n + 1) 0 ∧
    c3agree.column_counts.getD 1 0 = c3agree.pair_counts.getD (0 * c3agree.n + 1) 0 ∧
    corrFinalizeEntry c3agree 0 1 = specCorrEntry c3agree 0 1 :=
  ⟨by norm_num [c3agree], by norm_num [c3agree], by norm_num [c3agree],
   by norm_num [c3agree],
   corr_finalize_entry_matches_claim_when_counts_agree c3agree 0 1
     (by norm_num [c3agree]) (by norm_num [c3agree]) (by norm_num [c3agree])
     (by norm_num [c3agree])⟩

/-- Helper: splitting never yields an empty segment list, so every record
line has at least one field. -/
theorem splitOnSep_ne_nil (sep : Char) (bs : List Char) : splitOnSep sep bs ≠ [] := by
  cases bs with
  | nil => simp [splitOnSep]
  | cons b bs =>
    simp only [splitOnSep]
    rcases splitOnSep sep bs with _ | ⟨s, rest⟩
    · simp
    · by_cases hb : b = sep <;> simp [hb]

/-- Helper: basic facts about one `parse_chunk` step — configuration fields
are untouched, discovered headers are nonempty and persistent, and the
returned `headers` is empty exactly when none have been discovered. -/
theorem parse_chunk_spec (s : CsvState) (c : List Char)
    (h2 : ∀ l, s.header_data = some l → l ≠ []) :
    (parse_chunk s c).1.delimiter = s.delimiter ∧
    (parse_chunk s c).1.has_headers = s.has_headers ∧
    (∀ l, s.header_data = some l → (parse_chunk s c).1.header_data = some l) ∧
    (∀ l, (parse_chunk s c).1.header_data = some l → l ≠ []) ∧
    ((parse_chunk s c).2.headers.isEmpty = true ↔ (parse_chunk s c).1.header_data = none) := by
  unfold parse_chunk
  by_cases hmode : s.has_headers = true ∧ s.header_data = none
  · rw [if_pos hmode]
    rcases hne : (lineSplit (s.remainder ++ c)).1.filter (fun l => !l.isEmpty)
      with _ | ⟨h, rest⟩ <;> rw [hne]
    · refine ⟨rfl, rfl, fun l hl => hl, ?_, ?_⟩
      · intro l hl
        have hl' : s.header_data = some l := hl
        rw [hmode.2] at hl'
        cases hl'
      · show ([] : List (List Char)).isEmpty = true ↔ s.header_data = none
        simp [hmode.2]
    · refine ⟨rfl, rfl, ?_, ?_, ?_⟩
      · intro l hl
        rw [hmode.2] at hl
        exact absurd hl (by simp)
      · intro l hl
        simp only [Option.some_inj] at hl
        rw [← hl]
        exact splitOnSep_ne_nil _ _
      · simp [fieldsOf, splitOnSep_ne_nil]
  · rw [if_neg hmode]
    refine ⟨rfl, rfl, fun l hl => hl, h2, ?_⟩
    cases hh : s.header_data with
    | none => simp [hh]
    | some l =>
      have := h2 l hh
      simp [hh, this]

/-- Helper: the session invariant — the profiler exists exactly when
headers are known, and known headers are nonempty — is preserved by
`parse_and_profile_chunk`. -/
theorem session_step_inv (st : DataCertProfiler) (c : List Char)
    (h1 : st.profiler = none ↔ st.parser.header_data = none)
    (h2 : ∀ l, st.parser.header_data = some l → l ≠ []) :
    ((parse_and_profile_chunk st c).1.profiler = none ↔
      (parse_and_profile_chunk st c).1.parser.header_data = none) ∧
    (∀ l, (parse_and_profile_chunk st c).1.parser.header_data = some l → l ≠ []) := by
  obtain ⟨-, -, hmono, h2', hemp⟩ := parse_chunk_spec st.parser c h2
  unfold parse_and_profile_chunk
  refine ⟨?_, h2'⟩
  cases hq : st.profiler with
  | some p =>
    rcases hh : st.parser.header_data with _ | ⟨l⟩
    · rw [h1.mpr hh] at hq
      exact absurd hq (by simp)
    · simp [hq, hmono l hh]
  | none =>
    have hh := h1.mp hq
    simp only [hq]
    by_cases he : (parse_chunk st.parser c).2.headers.isEmpty = true
    · simp [he, hemp.mp he]
    · have : ¬ (parse_chunk st.parser c).1.header_data = none := fun hcon =>
        he (hemp.mpr hcon)
      simp only [Bool.not_eq_true] at he
      simp [he, this]

/-- Helper: the session invariant holds for every reachable session state. -/
theorem session_run_inv (chunks : List (List Char)) (delimiter : Option Char)
    (has_headers : Bool) :
    ((runSession chunks delimiter has_headers).profiler = none ↔
      (runSession chunks delimiter has_headers).parser.header_data = none) ∧
    (∀ l, (runSession chunks delimiter has_headers).parser.header_data = some l →
      l ≠ []) := by
  unfold runSession
  have : ∀ (st : DataCertProfiler),
      (st.profiler = none ↔ st.parser.header_data = none) →
      (∀ l, st.parser.header_data = some l → l ≠ []) →
      ((chunks.foldl (fun st c => (parse_and_profile_chunk st c).1) st).profiler = none ↔
        (chunks.foldl (fun st c => (parse_and_profile_chunk st c).1) st).parser.header_data
          = none) ∧
      (∀ l, (chunks.foldl (fun st c => (parse_and_profile_chunk st c).1)
          st).parser.header_data = some l → l ≠ []) := by
    induction chunks with
    | nil => intro st ha hb; exact ⟨ha, hb⟩
    | cons c cs ih =>
      intro st ha hb
      obtain ⟨ha', hb'⟩ := session_step_inv st c ha hb
      exact ih _ ha' hb'
  exact this (dcpNew delimiter has_headers) (by simp [dcpNew, csvNew])
    (by simp [dcpNew, csvNew])

/-- C6 counterexample: a session fed only the header line `a,b` parses zero
rows, yet `finalize` returns a report (with `total_rows = 0`) instead of
the claimed `no_data` error; conversely a session configured without
headers parses two rows yet `finalize` errors, because no call ever
reported headers. -/
theorem session_error_not_iff_zero_rows :
    (runThenFlush (csvNew none true) [strChars "a,b\n"]).2 = [] ∧
    sessionFinalize (runSession [strChars "a,b\n"] none true) =
      some ⟨[strChars "a", strChars "b"], 0⟩ ∧
    (runThenFlush (csvNew none false) [strChars "1,2\n3,4\n"]).2.length = 2 ∧
    sessionFinalize (runSession [strChars "1,2\n3,4\n"] none false) = none := by
  refine ⟨by decide, by decide, by decide, by decide⟩

/-- C6 (amended): `finalize` returns the fatal session error exactly when
no `parse_and_profile_chunk` call ever discovered headers (so the profiler
was never instantiated) — independent of how many rows were parsed. -/
theorem session_finalize_none_iff_headers_never_discovered (delimiter : Option Char)
    (has_headers : Bool) (chunks : List (List Char)) :
    sessionFinalize (runSession chunks delimiter has_headers) = none ↔
      (runSession chunks delimiter has_headers).parser.header_data = none := by
  obtain ⟨h1, -⟩ := session_run_inv chunks delimiter has_headers
  unfold sessionFinalize
  cases hq : (runSession chunks delimiter has_headers).profiler with
  | some p => simp [← h1, hq]
  | none => simp [← h1, hq]

/-- C7 counterexample: the claim's algorithm and the source disagree.  On
the single-record input `a|b|c` the claim scores the pipe (one record,
three shared fields) and returns `|`, but the source requires more than one
record and returns the comma default; on `a\t;b\nc\t;d\n` tab and
semicolon tie at the highest score, the claim says the comma is returned,
but the source keeps the earliest tied candidate and returns the tab. -/
theorem auto_detect_diverges_from_claim :
    specAutoDetectClaim (strChars "a|b|c") = '|' ∧
    auto_detect_delimiter (strChars "a|b|c") = ',' ∧
    detectScore '\t' (strChars "a\t;b\nc\t;d\n") =
      detectScore ';' (strChars "a\t;b\nc\t;d\n") ∧
    detectScore ';' (strChars "a\t;b\nc\t;d\n") = 4 ∧
    specAutoDetectClaim (strChars "a\t;b\nc\t;d\n") = ',' ∧
    auto_detect_delimiter (strChars "a\t;b\nc\t;d\n") = '\t' := by
  refine ⟨by decide, by decide, by decide, by decide, by decide, by decide⟩

/-- C7 (amended): each candidate's score is as the source computes it (a
score only when more than one record parses — the modelled reader drops
width mismatches — with a shared first-record field count above 1, scored
`records × fields`); the returned delimiter carries the maximal score,
every *earlier* candidate in the order comma, tab, semicolon, pipe scores
strictly less, and when the winning score is zero the comma is returned. -/
theorem auto_detect_highest_score_earliest_tie (data : List Char) :
    (∀ c ∈ ([',', '\t', ';', '|'] : List Char),
      detectScore c data ≤ detectScore (auto_detect_delimiter data) data) ∧
    (auto_detect_delimiter data = '\t' → detectScore ',' data < detectScore '\t' data) ∧
    (auto_detect_delimiter data = ';' → detectScore ',' data < detectScore ';' data ∧
      detectScore '\t' data < detectScore ';' data) ∧
    (auto_detect_delimiter data = '|' → detectScore ',' data < detectScore '|' data ∧
      detectScore '\t' data < detectScore '|' data ∧
      detectScore ';' data < detectScore '|' data) ∧
    (detectScore (auto_detect_delimiter data) data = 0 → auto_detect_delimiter data = ',') := by
  unfold auto_detect_delimiter
  generalize h0 : detectScore ',' data = s0
  generalize h1 : detectScore '\t' data = s1
  generalize h2 : detectScore ';' data = s2
  generalize h3 : detectScore '|' data = s3
  simp only [List.foldl_cons, List.foldl_nil, List.mem_cons, List.not_mem_nil, or_false,
    forall_eq_or_imp, forall_eq]
  split_ifs <;> simp_all <;> try omega

/-- Helper: cutting at the last newline commutes with concatenation — the
lines of `a ++ b` are the lines of `a` followed by the lines of `a`'s
remainder prepended to `b`. -/
theorem lineSplit_append (a b : List Char) :
    lineSplit (a ++ b) =
      ((lineSplit a).1 ++ (lineSplit ((lineSplit a).2 ++ b)).1,
       (lineSplit ((lineSplit a).2 ++ b)).2) := by
  induction a with
  | nil => simp [lineSplit]
  | cons c a ih =>
    by_cases hc : c = '\n'
    · simp [lineSplit, hc, ih]
    · rcases hA : (lineSplit a).1 with _ | ⟨l, ls⟩ <;>
        rcases hL : (lineSplit ((lineSplit a).2 ++ b)).1 with _ | ⟨m, ms⟩ <;>
        simp [lineSplit, hc, ih, hA, hL]

theorem lineSplit_rem_no_newline (s : List Char) : '\n' ∉ (lineSplit s).2 := by
  induction s with
  | nil => simp [lineSplit]
  | cons c cs ih =>
    by_cases hc : c = '\n'
    · simpa [lineSplit, hc] using ih
    · rcases hA : (lineSplit cs).1 with _ | ⟨l, ls⟩ <;>
        simp_all [lineSplit, hc, hA] <;>
        exact fun hh => hc hh.symm

theorem lineSplit_of_no_newline (s : List Char) (h : '\n' ∉ s) : lineSplit s = ([], s) := by
  induction s with
  | nil => simp [lineSplit]
  | cons c cs ih =>
    have hc : ¬ c = '\n' := fun hh => h (by simp [hh])
    have := ih (fun hh => h (List.mem_cons_of_mem _ hh))
    simp [lineSplit, hc, this]

theorem readRecs_some_uniform (delim : Char) (w : ℕ) (ls : List (List Char))
    (h : ∀ l ∈ ls, (fieldsOf delim l).length = w) :
    readRecs delim (some w) ls = ⟨ls.map (fieldsOf delim), 0, ls.length⟩ := by
  induction ls with
  | nil => simp [readRecs]
  | cons l ls ih =>
    have hl := h l (by simp)
    have ih' := ih fun x hx => h x (by simp [hx])
    simp [readRecs, hl, ih']

theorem readRecs_none_uniform (delim : Char) (w : ℕ) (ls : List (List Char))
    (h : ∀ l ∈ ls, (fieldsOf delim l).length = w) :
    readRecs delim none ls = ⟨ls.map (fieldsOf delim), 0, ls.length⟩ := by
  cases ls with
  | nil => simp [readRecs]
  | cons l ls =>
    have hl := h l (by simp)
    have := readRecs_some_uniform delim w ls fun x hx => h x (by simp [hx])
    simp [readRecs, hl, this]

theorem parse_chunk_nohdr (s : CsvState) (c : List Char) (w : ℕ)
    (hmode : ¬ (s.has_headers = true ∧ s.header_data = none))
    (hw : ∀ l ∈ (lineSplit (s.remainder ++ c)).1, l ≠ [] →
      (fieldsOf s.delimiter l).length = w) :
    parse_chunk s c =
      ({ s with
          total_rows := s.total_rows +
            ((lineSplit (s.remainder ++ c)).1.filter fun l => !l.isEmpty).length
          remainder := (lineSplit (s.remainder ++ c)).2 },
       ⟨s.header_data.getD [],
        ((lineSplit (s.remainder ++ c)).1.filter fun l => !l.isEmpty).map
          (fieldsOf s.delimiter),
        s.malformed_count,
        s.total_rows +
          ((lineSplit (s.remainder ++ c)).1.filter fun l => !l.isEmpty).length⟩) := by
  have hrr := readRecs_none_uniform s.delimiter w
    ((lineSplit (s.remainder ++ c)).1.filter fun l => !l.isEmpty)
    (by
      intro l hl
      rw [List.mem_filter] at hl
      exact hw l hl.1 (by simpa using hl.2))
  unfold parse_chunk
  rw [if_neg hmode, hrr]
  rfl

theorem parse_chunk_hdr_nil (s : CsvState) (c : List Char)
    (hmode : s.has_headers = true ∧ s.header_data = none)
    (hne : ((lineSplit (s.remainder ++ c)).1.filter fun l => !l.isEmpty) = []) :
    parse_chunk s c =
      ({ s with remainder := (lineSplit (s.remainder ++ c)).2 },
       ⟨[], [], s.malformed_count, s.total_rows⟩) := by
  unfold parse_chunk
  rw [if_pos hmode, hne]

theorem parse_chunk_hdr_cons (s : CsvState) (c : List Char) (w : ℕ)
    (hmode : s.has_headers = true ∧ s.header_data = none)
    (hw : ∀ l ∈ (lineSplit (s.remainder ++ c)).1, l ≠ [] →
      (fieldsOf s.delimiter l).length = w)
    (h1 : List Char) (rest : List (List Char))
    (hne : ((lineSplit (s.remainder ++ c)).1.filter fun l => !l.isEmpty) = h1 :: rest) :
    parse_chunk s c =
      ({ s with
          header_data := some (fieldsOf s.delimiter h1)
          total_rows := s.total_rows + rest.length
          remainder := (lineSplit (s.remainder ++ c)).2 },
       ⟨fieldsOf s.delimiter h1, rest.map (fieldsOf s.delimiter),
        s.malformed_count, s.total_rows + rest.length⟩) := by
  have hmemh : h1 ∈ (lineSplit (s.remainder ++ c)).1 ∧ h1 ≠ [] := by
    have : h1 ∈ ((lineSplit (s.remainder ++ c)).1.filter fun l => !l.isEmpty) := by
      rw [hne]; simp
    rw [List.mem_filter] at this
    exact ⟨this.1, by simpa using this.2⟩
  have hwh : (fieldsOf s.delimiter h1).length = w := hw h1 hmemh.1 hmemh.2
  have hrr := readRecs_some_uniform s.delimiter w rest
    (by
      intro l hl
      have : l ∈ ((lineSplit (s.remainder ++ c)).1.filter fun l => !l.isEmpty) := by
        rw [hne]; simp [hl]
      rw [List.mem_filter] at this
      exact hw l this.1 (by simpa using this.2))
  unfold parse_chunk
  rw [if_pos hmode, hne]
  simp only [hwh, hrr]
  rfl

theorem parse_chunk_append (s : CsvState) (a b : List Char) (w : ℕ)
    (hw : ∀ l ∈ (lineSplit (s.remainder ++ (a ++ b))).1, l ≠ [] →
      (fieldsOf s.delimiter l).length = w) :
    (parse_chunk s (a ++ b)).1 = (parse_chunk (parse_chunk s a).1 b).1 ∧
    (parse_chunk s (a ++ b)).2.rows =
      (parse_chunk s a).2.rows ++ (parse_chunk (parse_chunk s a).1 b).2.rows := by
  have hassoc : s.remainder ++ (a ++ b) = s.remainder ++ a ++ b :=
    (List.append_assoc _ _ _).symm
  have hsplit := lineSplit_append (s.remainder ++ a) b
  have hlines : (lineSplit (s.remainder ++ (a ++ b))).1 =
      (lineSplit (s.remainder ++ a)).1 ++
        (lineSplit ((lineSplit (s.remainder ++ a)).2 ++ b)).1 := by
    rw [hassoc, hsplit]
  have hrem2 : (lineSplit (s.remainder ++ (a ++ b))).2 =
      (lineSplit ((lineSplit (s.remainder ++ a)).2 ++ b)).2 := by
    rw [hassoc, hsplit]
  have hwa : ∀ l ∈ (lineSplit (s.remainder ++ a)).1, l ≠ [] →
      (fieldsOf s.delimiter l).length = w := fun l hl hlne =>
    hw l (by rw [hlines]; exact List.mem_append_left _ hl) hlne
  have hwb : ∀ l ∈ (lineSplit ((lineSplit (s.remainder ++ a)).2 ++ b)).1, l ≠ [] →
      (fieldsOf s.delimiter l).length = w := fun l hl hlne =>
    hw l (by rw [hlines]; exact List.mem_append_right _ hl) hlne
  by_cases hmode : s.has_headers = true ∧ s.header_data = none
  · rcases hne1 : ((lineSplit (s.remainder ++ a)).1.filter fun l => !l.isEmpty)
      with _ | ⟨h1, rest1⟩
    · have hc1 := parse_chunk_hdr_nil s a hmode hne1
      rcases hne2 : ((lineSplit ((lineSplit (s.remainder ++ a)).2 ++ b)).1.filter
          fun l => !l.isEmpty) with _ | ⟨h2, rest2⟩
      · have hwhole := parse_chunk_hdr_nil s (a ++ b) hmode
          (by rw [hlines, List.filter_append, hne1, hne2]; rfl)
        have hc2 := parse_chunk_hdr_nil
          { s with remainder := (lineSplit (s.remainder ++ a)).2 } b
          ⟨hmode.1, hmode.2⟩ hne2
        rw [hwhole, hc1, hc2]
        exact ⟨by simp [hrem2], by simp⟩
      · have hwhole := parse_chunk_hdr_cons s (a ++ b) w hmode hw h2 rest2
          (by rw [hlines, List.filter_append, hne1, hne2]; rfl)
        have hc2 := parse_chunk_hdr_cons
          { s with remainder := (lineSplit (s.remainder ++ a)).2 } b w
          ⟨hmode.1, hmode.2⟩ hwb h2 rest2 hne2
        rw [hwhole, hc1, hc2]
        exact ⟨by simp [hrem2], by simp⟩
    · have hc1 := parse_chunk_hdr_cons s a w hmode hwa h1 rest1 hne1
      have hwhole := parse_chunk_hdr_cons s (a ++ b) w hmode hw h1
        (rest1 ++ ((lineSplit ((lineSplit (s.remainder ++ a)).2 ++ b)).1.filter
          fun l => !l.isEmpty))
        (by rw [hlines, List.filter_append, hne1]; rfl)
      have hc2 := parse_chunk_nohdr
        { s with
            header_data := some (fieldsOf s.delimiter h1)
            total_rows := s.total_rows + rest1.length
            remainder := (lineSplit (s.remainder ++ a)).2 } b w
        (by simp) hwb
      rw [hwhole, hc1, hc2]
      refine ⟨by simp [hrem2, Nat.add_assoc], by simp⟩
  · have hc1 := parse_chunk_nohdr s a w hmode hwa
    have hwhole := parse_chunk_nohdr s (a ++ b) w hmode hw
    have hc2 := parse_chunk_nohdr
      { s with
          total_rows := s.total_rows +
            ((lineSplit (s.remainder ++ a)).1.filter fun l => !l.isEmpty).length
          remainder := (lineSplit (s.remainder ++ a)).2 } b w
      (by
        intro hcon
        exact hmode ⟨hcon.1, hcon.2⟩) hwb
    rw [hwhole, hc1, hc2]
    refine ⟨by simp [hrem2, hlines, List.filter_append, Nat.add_assoc],
      by simp [hlines, List.filter_append]⟩

theorem parse_chunk_basic (s : CsvState) (c : List Char) :
    (parse_chunk s c).1.remainder = (lineSplit (s.remainder ++ c)).2 ∧
    (parse_chunk s c).1.delimiter = s.delimiter := by
  unfold parse_chunk
  by_cases hmode : s.has_headers = true ∧ s.header_data = none
  · rw [if_pos hmode]
    rcases hne : ((lineSplit (s.remainder ++ c)).1.filter fun l => !l.isEmpty)
      with _ | ⟨h, r⟩ <;> rw [hne] <;> exact ⟨rfl, rfl⟩
  · rw [if_neg hmode]
    exact ⟨rfl, rfl⟩

theorem parse_chunk_nil (s : CsvState) (hrem : '\n' ∉ s.remainder) :
    (parse_chunk s []).1 = s ∧ (parse_chunk s []).2.rows = [] := by
  have hls : lineSplit (s.remainder ++ []) = ([], s.remainder) := by
    rw [List.append_nil]; exact lineSplit_of_no_newline _ hrem
  by_cases hmode : s.has_headers = true ∧ s.header_data = none
  · have h := parse_chunk_hdr_nil s [] hmode (by rw [hls]; rfl)
    rw [h]
    exact ⟨by rw [hls], rfl⟩
  · have h := parse_chunk_nohdr s [] 0 hmode (by rw [hls]; intro l hl; simp at hl)
    rw [h]
    rw [hls]
    exact ⟨rfl, rfl⟩

theorem runChunks_nil (s : CsvState) : runChunks s [] = (s, []) := rfl

theorem runChunks_cons (s : CsvState) (c : List Char) (cs : List (List Char)) :
    runChunks s (c :: cs) =
      ((runChunks (parse_chunk s c).1 cs).1,
       (parse_chunk s c).2.rows ++ (runChunks (parse_chunk s c).1 cs).2) := rfl

theorem runThenFlush_single (t : CsvState) (d : List Char) :
    runThenFlush t [d] =
      ((csvFlush (parse_chunk t d).1).1,
       (parse_chunk t d).2.rows ++ (csvFlush (parse_chunk t d).1).2.rows) := by
  unfold runThenFlush
  rw [runChunks_cons, runChunks_nil]
  simp

theorem runThenFlush_cons (s : CsvState) (c : List Char) (cs : List (List Char)) :
    runThenFlush s (c :: cs) =
      ((runThenFlush (parse_chunk s c).1 cs).1,
       (parse_chunk s c).2.rows ++ (runThenFlush (parse_chunk s c).1 cs).2) := by
  unfold runThenFlush
  rw [runChunks_cons]
  simp [List.append_assoc]

theorem runThenFlush_concat (s : CsvState) (chunks : List (List Char)) (w : ℕ)
    (hrem : '\n' ∉ s.remainder)
    (hw : ∀ l ∈ (lineSplit (s.remainder ++ chunks.foldr (· ++ ·) [])).1, l ≠ [] →
      (fieldsOf s.delimiter l).length = w) :
    runThenFlush s chunks = runThenFlush s [chunks.foldr (· ++ ·) []] := by
  induction chunks generalizing s with
  | nil =>
    obtain ⟨h1, h2⟩ := parse_chunk_nil s hrem
    simp only [List.foldr_nil]
    rw [runThenFlush_single s [], h1, h2]
    unfold runThenFlush
    rw [runChunks_nil]
  | cons c cs ih =>
    obtain ⟨hst, hrows⟩ := parse_chunk_append s c (cs.foldr (· ++ ·) []) w hw
    have hbasic := parse_chunk_basic s c
    have hrem1 : '\n' ∉ (parse_chunk s c).1.remainder := by
      rw [hbasic.1]; exact lineSplit_rem_no_newline _
    have hw1 : ∀ l ∈ (lineSplit ((parse_chunk s c).1.remainder ++
        cs.foldr (· ++ ·) [])).1, l ≠ [] →
        (fieldsOf (parse_chunk s c).1.delimiter l).length = w := by
      rw [hbasic.1, hbasic.2]
      intro l hl hlne
      apply hw l ?_ hlne
      have hassoc : s.remainder ++ (c :: cs).foldr (· ++ ·) [] =
          (s.remainder ++ c) ++ cs.foldr (· ++ ·) [] := by
        simp [List.append_assoc]
      rw [hassoc, lineSplit_append (s.remainder ++ c) _]
      exact List.mem_append_right _ hl
    have ihr := ih (parse_chunk s c).1 hrem1 hw1
    rw [runThenFlush_cons, ihr, runThenFlush_single ((parse_chunk s c).1)]
    simp only [List.foldr_cons]
    rw [runThenFlush_single s, hst, hrows]
    simp [List.append_assoc]

/-- C2 counterexample: the stream `id,name\n2,Bob,Extra\n3,Carol\n` fed
whole emits only `3,Carol` (the three-field record is malformed against the
two-field header), but split after the header line it emits only
`2,Bob,Extra`: the second chunk's reader is built without headers and takes
its expected width from the first record of that chunk, so the multisets of
emitted rows differ. -/
theorem csv_chunk_split_changes_rows :
    (runThenFlush (csvNew none true)
        [strChars "id,name\n", strChars "2,Bob,Extra\n3,Carol\n"]).2 =
      [[strChars "2", strChars "Bob", strChars "Extra"]] ∧
    (runThenFlush (csvNew none true)
        [strChars "id,name\n" ++ strChars "2,Bob,Extra\n3,Carol\n"]).2 =
      [[strChars "3", strChars "Carol"]] ∧
    ¬ ((runThenFlush (csvNew none true)
        [strChars "id,name\n", strChars "2,Bob,Extra\n3,Carol\n"]).2.Perm
       (runThenFlush (csvNew none true)
        [strChars "id,name\n" ++ strChars "2,Bob,Extra\n3,Carol\n"]).2) := by
  refine ⟨by decide, by decide, by decide⟩

/-- C2 (amended): when every record line of the byte stream has one common
field count, any way of chunking the stream is equivalent to feeding it
whole: the final parser state and the full sequence of rows emitted across
`parse_chunk*` and `flush` coincide (hence so do the row multiset,
`malformed_count` and `total_rows`). -/
theorem csv_chunk_splicing_uniform_width (delim : Char) (hasH : Bool)
    (chunks : List (List Char)) (w : ℕ)
    (hw : ∀ l ∈ allRecordLines (chunks.foldr (· ++ ·) []),
      (fieldsOf delim l).length = w) :
    runThenFlush (csvNew (some delim) hasH) chunks =
      runThenFlush (csvNew (some delim) hasH) [chunks.foldr (· ++ ·) []] := by
  apply runThenFlush_concat _ _ w
  · simp [csvNew]
  · intro l hl hlne
    apply hw
    unfold allRecordLines
    rw [List.mem_filter]
    constructor
    · apply List.mem_append_left
      simpa [csvNew] using hl
    · simpa using hlne

/-- C2 witness: the specification's own splicing scenario — three chunks of
`id,name\n1,Alice\n2,Bob\n3,Carol`, every line of width 2 — agrees with
the single-chunk run. -/
theorem csv_chunk_splicing_uniform_width_witness :
    (∀ l ∈ allRecordLines (([strChars "id,name\n1,Ali", strChars "ce\n2,Bob\n",
        strChars "3,Carol"]).foldr (· ++ ·) []), (fieldsOf ',' l).length = 2) ∧
    runThenFlush (csvNew (some ',') true)
        [strChars "id,name\n1,Ali", strChars "ce\n2,Bob\n", strChars "3,Carol"] =
      runThenFlush (csvNew (some ',') true)
        [([strChars "id,name\n1,Ali", strChars "ce\n2,Bob\n",
           strChars "3,Carol"]).foldr (· ++ ·) []] :=
  ⟨by decide, csv_chunk_splicing_uniform_width ',' true _ 2 (by decide)⟩
